import Mathlib

/-!
# mcloptlib: line searches, conjugate gradient and L-BFGS

A shallow embedding of `include/MCL/Backtracking.hpp` and `include/MCL/LBFGS.hpp` (namespace
`mcl::optlib`) and of `include/MCL/ConjugateGradient.hpp` (namespace `mcl::optimize`).

Modelling conventions.

* `Scalar` is an arbitrary linearly ordered field `K` (exact arithmetic): rounding and
  infinities of `float`/`double` are not modelled. Division is the total division of the field.
* NaN is modelled where the source can produce one from numbers, the square root in
  `internal::cubic`: the type `Fp K` adds a NaN to `K`, and `rangeFp`, `cubicFp`, `searchFp` are
  `internal::range`, `internal::cubic` and `BacktrackingCurvature::search` on `Fp K`. On numbers
  they agree with the exact functions (`rangeFp_num`, `cubicFp_num`).
* `Eigen::Matrix<Scalar,DIM,1>` is `Vec K n = Fin n → K` with pointwise operations.
* `int` quantities (`max_iters`, `iter`, `k`, `maxIter`, `global_iter`) are `Int`.
* `Problem<Scalar,DIM>` (declared in `Problem.hpp`) is a pair of pure functions: `value` and
  `gradient`, the latter returning the scalar it reports together with the vector it writes.
* `std::sqrt` is a parameter wherever the source calls it: an arbitrary function on `K`, which
  therefore has some value in `K` at a negative argument as well; on `Fp K` the square root of a
  negative number is NaN.
* `for` loops whose counter and bound are not written in the body are given by recursion on the
  number of loop tests that can still succeed; the loop of `LBFGS::minimize`, which rewrites both,
  is given with its loop test and a bound `fuel` on the recursion.
-/

namespace mcl
namespace optlib

/-- Column vector `Eigen::Matrix<Scalar,DIM,1>`. -/
abbrev Vec (K : Type) (n : Nat) : Type := Fin n → K

/-- The objective interface of `Problem.hpp`: `value(x)` and `gradient(x, grad)`, where the
second returns a scalar and fills `grad`. -/
structure Problem (K : Type) (n : Nat) where
  value : Vec K n → K
  gradient : Vec K n → K × Vec K n

section Basic
variable {K : Type} [LinearOrderedField K] {n : Nat}

/-- Eigen `a.dot(b)`. -/
def dot (a b : Vec K n) : K := ∑ i, a i * b i

/-- Eigen `a.squaredNorm()`. -/
def squaredNorm (a : Vec K n) : K := dot a a

/-- Eigen `a.lpNorm<Eigen::Infinity>()`: the largest absolute value of a coefficient. -/
def lpNormInf (a : Vec K n) : K := (List.ofFn a).foldl (fun m c => max m |c|) 0

end Basic

namespace internal
variable {K : Type} [LinearOrderedField K]

/-- The clamp `internal::range( alpha, low, high )` on numbers. With a NaN argument the source
behaves as `rangeFp` below, which agrees with this function on numbers. -/
def range (alpha low high : K) : K :=
  if alpha < low then low
  else if alpha > high then high
  else alpha

/-- The interpolation `internal::cubic( fx0, gtp, fxa, alpha, fxp, alphap )` on numbers; `r0`,
`r1` are the two entries of `r = mult * A * B`. The square root is the parameter `sqrt`, total
on `K`; the NaN that `std::sqrt` returns at a negative discriminant is in `cubicFp` below, which
agrees with this function when the quadratic branch is taken or the discriminant is not
negative. -/
def cubic (sqrt : K → K) (fx0 gtp fxa alpha fxp alphap : K) : K :=
  let mult := 1 / (alpha * alpha * alphap * alphap * (alpha - alphap))
  let a00 := alphap * alphap
  let a01 := -alpha * alpha
  let a10 := -alphap * alphap * alphap
  let a11 := alpha * alpha * alpha
  let b0 := fxa - fx0 - alpha * gtp
  let b1 := fxp - fx0 - alphap * gtp
  let r0 := mult * a00 * b0 + mult * a01 * b1
  let r1 := mult * a10 * b0 + mult * a11 * b1
  if |r0| ≤ 0 then -gtp / (2 * r1)
  else
    let d := sqrt (r1 * r1 - 3 * r0 * gtp)
    (-r1 + d) / (3 * r0)

end internal

namespace Backtracking
variable {K : Type} [LinearOrderedField K] {n : Nat}

/-- The shrink factor `tau = 0.7`. -/
def tau : K := 7 / 10

/-- What a line-search loop leaves behind: the counter `iter` and the step `alpha` at loop
exit, and (as a record of the run) the steps at which `problem.value` was evaluated, in
order. -/
structure LoopExit (K : Type) where
  iter : Int
  alpha : K
  trials : List K

/-- The test `fxa <= fx0_fxa` with `fxa = problem.value(x + alpha*p)` and
`fx0_fxa = fx0 + alpha*decrease*gtp` ("Armijo condition I"). -/
def sufficientDecrease (decrease : K) (x p : Vec K n) (problem : Problem K n) (fx0 gtp : K)
    (alpha : K) : Prop :=
  problem.value (x + alpha • p) ≤ fx0 + alpha * decrease * gtp

instance (decrease : K) (x p : Vec K n) (problem : Problem K n) (fx0 gtp alpha : K) :
    Decidable (sufficientDecrease decrease x p problem fx0 gtp alpha) := by
  unfold sufficientDecrease; infer_instance

/-- The loop `for( ; iter < max_iters; ++iter )` of `Backtracking::search`, by recursion on the
number `max_iters - iter` of loop tests that can still succeed. The first case is the failed
loop test, the `if` is the `break`. -/
def searchLoop (decrease : K) (x p : Vec K n) (problem : Problem K n) (fx0 gtp : K) :
    Nat → Int → K → LoopExit K
  | 0, iter, alpha => ⟨iter, alpha, []⟩
  | r + 1, iter, alpha =>
    if sufficientDecrease decrease x p problem fx0 gtp alpha then ⟨iter, alpha, [alpha]⟩
    else
      let out := searchLoop decrease x p problem fx0 gtp r (iter + 1) (alpha * tau)
      ⟨out.iter, out.alpha, alpha :: out.trials⟩

/-- `Backtracking::search(max_iters, decrease, x, p, problem, alpha0)`. -/
def search (max_iters : Int) (decrease : K) (x p : Vec K n) (problem : Problem K n)
    (alpha0 : K) : K :=
  let fx0 := (problem.gradient x).1
  let grad := (problem.gradient x).2
  let gtp := dot grad p
  let out := searchLoop decrease x p problem fx0 gtp max_iters.toNat 0 alpha0
  if out.iter = max_iters then -1 else out.alpha

end Backtracking

namespace BacktrackingCurvature
variable {K : Type} [LinearOrderedField K] {n : Nat}

open Backtracking (LoopExit sufficientDecrease)

/-- The loop variables of `BacktrackingCurvature::search`. -/
structure LoopState (K : Type) where
  iter : Int
  alpha : K
  fxp : K
  alphap : K

/-- The part of the loop body after a rejected trial (lines 126-131), followed by the `++iter`
of the loop header; `fxa` is the objective value at the rejected step. -/
def refine (sqrt : K → K) (fx0 gtp fxa : K) (st : LoopState K) : LoopState K :=
  let alpha_tmp :=
    if st.iter = 0 then gtp / (2 * (fx0 + gtp - fxa))
    else internal.cubic sqrt fx0 gtp fxa st.alpha st.fxp st.alphap
  { iter := st.iter + 1
    fxp := fxa
    alphap := st.alpha
    alpha := internal.range alpha_tmp (1 / 10 * st.alpha) (1 / 2 * st.alpha) }

/-- The loop `for( ; iter < max_iters; ++iter )` of `BacktrackingCurvature::search`, by recursion
on the number `max_iters - iter` of loop tests that can still succeed. -/
def searchLoop (sqrt : K → K) (decrease : K) (x p : Vec K n) (problem : Problem K n)
    (fx0 gtp : K) : Nat → LoopState K → LoopExit K
  | 0, st => ⟨st.iter, st.alpha, []⟩
  | r + 1, st =>
    if sufficientDecrease decrease x p problem fx0 gtp st.alpha then
      ⟨st.iter, st.alpha, [st.alpha]⟩
    else
      let fxa := problem.value (x + st.alpha • p)
      let out := searchLoop sqrt decrease x p problem fx0 gtp r (refine sqrt fx0 gtp fxa st)
      ⟨out.iter, out.alpha, st.alpha :: out.trials⟩

/-- `BacktrackingCurvature::search(max_iters, decrease, x, p, problem, alpha0)`. -/
def search (sqrt : K → K) (max_iters : Int) (decrease : K) (x p : Vec K n)
    (problem : Problem K n) (alpha0 : K) : K :=
  let fx0 := (problem.gradient x).1
  let grad := (problem.gradient x).2
  let gtp := dot grad p
  let out := searchLoop sqrt decrease x p problem fx0 gtp max_iters.toNat
    ⟨0, alpha0, fx0, alpha0⟩
  if out.iter = max_iters then -1 else out.alpha

/-- The safeguard relation between a rejected step and the step tried next. -/
def Safeguarded (prev next : K) : Prop :=
  0 < prev ∧ 0 < next ∧ 1 / 10 * prev ≤ next ∧ next ≤ 1 / 2 * prev

/-- The steps a run of the loop goes through: the evaluated trial steps, followed, when the
loop ran out of trials, by the step it had prepared for the next trial. -/
def steps (out : LoopExit K) (exhausted : Prop) [Decidable exhausted] : List K :=
  out.trials ++ (if exhausted then [out.alpha] else [])

/-- The steps a call of `BacktrackingCurvature::search` goes through, in order. -/
def searchSteps (sqrt : K → K) (max_iters : Int) (decrease : K) (x p : Vec K n)
    (problem : Problem K n) (alpha0 : K) : List K :=
  let fx0 := (problem.gradient x).1
  let gtp := dot (problem.gradient x).2 p
  let out := searchLoop sqrt decrease x p problem fx0 gtp max_iters.toNat
    ⟨0, alpha0, fx0, alpha0⟩
  steps out (out.iter = 0 + (max_iters.toNat : Int))

end BacktrackingCurvature

/-- The line search a solver calls, `Armijo<Scalar,DIM,P>::linesearch(x, p, problem, alpha_init)`.
The header `Armijo.hpp` that declares it is not among the sources, so the solvers take the line
search as a parameter of this type. -/
abbrev LineSearch (K : Type) (n : Nat) : Type := Vec K n → Vec K n → Problem K n → K → K

end optlib

namespace optimize
open optlib

namespace ConjugateGradient
variable {K : Type} [LinearOrderedField K] {n : Nat}

/-- The variables of `ConjugateGradient::minimize` that live across iterations, and (as a record
of the run) the number of line searches performed so far. -/
structure State (K : Type) (n : Nat) where
  x : Vec K n
  grad : Vec K n
  grad_old : Vec K n
  p : Vec K n
  searches : Nat

/-- The direction formed in lines 57-61. -/
def direction (iter : Int) (grad grad_old p : Vec K n) : Vec K n :=
  if iter = 0 then -grad
  else
    let beta := dot grad grad / dot grad_old grad_old;
    -grad + beta • p

/-- Lines 57-65 of the loop body, run once the gradient `grad` at `st.x` has failed the
tolerance test: form the direction, search along it from the step `1`, move `x`. -/
def advance (linesearch : LineSearch K n) (problem : Problem K n) (iter : Int)
    (grad : Vec K n) (st : State K n) : State K n :=
  let p := direction iter grad st.grad_old st.p
  let alpha := linesearch st.x p problem 1
  { x := st.x + alpha • p
    grad := grad
    grad_old := grad
    p := p
    searches := st.searches + 1 }

/-- The loop `for( int iter=0; iter<max_iters; ++iter )` of `ConjugateGradient::minimize`, by
recursion on the number `max_iters - iter` of loop tests that can still succeed. -/
def minimizeLoop (linesearch : LineSearch K n) (eps : K) (problem : Problem K n) :
    Nat → Int → State K n → State K n
  | 0, _, st => st
  | r + 1, iter, st =>
    let grad := (problem.gradient st.x).2
    let gradNorm := lpNormInf grad
    if gradNorm ≤ eps then { st with grad := grad }
    else minimizeLoop linesearch eps problem r (iter + 1) (advance linesearch problem iter grad st)

/-- The state on entry to the loop; the vectors `grad`, `grad_old`, `p` are declared without a
value and are written before they are read, they start as zero here. -/
def init (x : Vec K n) : State K n :=
  { x := x, grad := 0, grad_old := 0, p := 0, searches := 0 }

/-- `ConjugateGradient::minimize(problem, x)` for a solver with fields `max_iters`, `eps`: the
state at return, whose `x` is what is left in the caller's vector. -/
def minimize (linesearch : LineSearch K n) (max_iters : Int) (eps : K) (problem : Problem K n)
    (x : Vec K n) : State K n :=
  minimizeLoop linesearch eps problem max_iters.toNat 0 (init x)

/-- The iterates of the method when no tolerance test stops it: `iterates j` is the state after
`j` updates `x <- x + alpha*p`. -/
def iterates (linesearch : LineSearch K n) (problem : Problem K n) (x : Vec K n) :
    Nat → State K n
  | 0 => init x
  | j + 1 =>
    advance linesearch problem j (problem.gradient (iterates linesearch problem x j).x).2
      (iterates linesearch problem x j)

end ConjugateGradient

end optimize

namespace optlib

namespace LBFGS
variable {K : Type} [LinearOrderedField K] {n : Nat}

/-- The local variables of `LBFGS::minimize`. The matrices `s`, `y` are given by their columns
and the vectors `alpha`, `rho` by their coefficients; only the indices below `M` are used. -/
structure State (K : Type) (n : Nat) where
  x : Vec K n
  s : Nat → Vec K n
  y : Nat → Vec K n
  alpha : Nat → K
  rho : Nat → K
  grad : Vec K n
  q : Vec K n
  grad_old : Vec K n
  x_old : Vec K n
  gamma_k : K
  gradNorm : K
  alpha_init : K
  global_iter : Int
  maxIter : Int
  k : Int

/-- The arrays `rho`, `alpha` and the vector `q` as the two loops of the recursion update them. -/
structure Work (K : Type) (n : Nat) where
  rho : Nat → K
  alpha : Nat → K
  q : Vec K n

/-- The first loop `for(int i = iter - 1; i >= 0; --i)` (lines 91-95), by recursion on `i + 1`. -/
def firstLoop (s y : Nat → Vec K n) : Nat → Work K n → Work K n
  | 0, w => w
  | i + 1, w =>
    let rho := Function.update w.rho i (1 / dot (s i) (y i))
    let alpha := Function.update w.alpha i (rho i * dot (s i) w.q)
    firstLoop s y i { rho := rho, alpha := alpha, q := w.q - alpha i • y i }

/-- The second loop `for(int i = 0; i < iter; ++i)` (lines 99-102): `secondLoop s y rho alpha m q`
is `q` after the passes `i = 0, ..., m - 1`. -/
def secondLoop (s y : Nat → Vec K n) (rho alpha : Nat → K) : Nat → Vec K n → Vec K n
  | 0, q => q
  | i + 1, q =>
    let q1 := secondLoop s y rho alpha i q
    let beta := rho i * dot q1 (y i)
    q1 + (alpha i - beta) • s i

/-- Lines 86-102: the two-loop recursion applied to `q = grad`, with `iter = std::min(M, k)`. -/
def twoLoop (M : Nat) (st : State K n) : Work K n :=
  let iter := (min (M : Int) st.k).toNat
  let w := firstLoop st.s st.y iter { rho := st.rho, alpha := st.alpha, q := st.grad }
  { w with q := secondLoop st.s st.y w.rho w.alpha iter (st.gamma_k • w.q) }

/-- The history update of lines 129-138 on one of the matrices `s`, `y`: write column `k` when
`k < M`, otherwise move the columns `1 .. M-1` one place to the left and write column `M-1`. -/
def updateHistory (M : Nat) (k : Int) (m : Nat → Vec K n) (v : Vec K n) : Nat → Vec K n :=
  if k < M then Function.update m k.toNat v
  else fun j => if j + 1 < M then m (j + 1) else if j + 1 = M then v else m j

/-- The test `dir <= eps` of line 106, with `dir = q.dot(grad)` for the `q` of the recursion. -/
def nonDescent (M : Nat) (eps : K) (st : State K n) : Prop :=
  dot (twoLoop M st).q st.grad ≤ eps

instance (M : Nat) (eps : K) (st : State K n) : Decidable (nonDescent M eps st) := by
  unfold nonDescent; infer_instance

/-- Lines 84-111: the state after the recursion and the descent check. -/
def chooseDirection (M : Nat) (eps : K) (st : State K n) : State K n :=
  let w := twoLoop M st
  let st1 : State K n :=
    { st with
      x_old := st.x
      grad_old := st.grad
      global_iter := st.global_iter + 1
      rho := w.rho
      alpha := w.alpha
      q := w.q }
  if nonDescent M eps st then
    { st1 with
      q := st.grad
      maxIter := st.maxIter - st.k
      k := 0
      alpha_init := min 1 (1 / lpNormInf st.grad) }
  else st1

/-- Lines 113-143, from the line search to the end of the loop body. The flag is `true` when
the body leaves the loop by `break`. -/
def takeStep (M : Nat) (linesearch : LineSearch K n) (eps : K) (problem : Problem K n)
    (st : State K n) : Bool × State K n :=
  let rate := linesearch st.x (-st.q) problem st.alpha_init
  let st2 : State K n := { st with x := st.x - rate • st.q }
  if rate * squaredNorm st.q ≤ eps then (true, st2)
  else
    let grad := (problem.gradient st2.x).2
    let gradNorm := lpNormInf grad
    let st3 : State K n := { st2 with grad := grad, gradNorm := gradNorm }
    if gradNorm ≤ eps then (true, st3)
    else
      let s_temp := st3.x - st3.x_old
      let y_temp := st3.grad - st3.grad_old
      let st4 : State K n :=
        { st3 with
          s := updateHistory M st3.k st3.s s_temp
          y := updateHistory M st3.k st3.y y_temp }
      let denom := dot y_temp y_temp
      if denom ≤ 0 then (true, st4)
      else (false, { st4 with gamma_k := dot s_temp y_temp / denom, alpha_init := 1 })

/-- The body of the loop `for( int k=0; k<maxIter; ++k )` (lines 84-143). -/
def body (M : Nat) (linesearch : LineSearch K n) (eps : K) (problem : Problem K n)
    (st : State K n) : Bool × State K n :=
  takeStep M linesearch eps problem (chooseDirection M eps st)

/-- The loop `for( int k=0; k<maxIter; ++k )` with a bound `fuel` on the number of loop tests
that succeed; `none` when the bound is used up. Returns the state at loop exit and the number
of times the body ran. -/
def loop (M : Nat) (linesearch : LineSearch K n) (eps : K) (problem : Problem K n) :
    Nat → State K n → Option (State K n × Nat)
  | 0, st => if st.k < st.maxIter then none else some (st, 0)
  | fuel + 1, st =>
    if st.k < st.maxIter then
      let out := body M linesearch eps problem st
      if out.1 then some (out.2, 1)
      else
        (loop M linesearch eps problem fuel { out.2 with k := out.2.k + 1 }).map
          fun r => (r.1, r.2 + 1)
    else some (st, 0)

/-- Lines 64-80: the state on entry to the loop. -/
def init (max_iters : Int) (init_hess : K) (problem : Problem K n) (x : Vec K n) : State K n :=
  { x := x
    s := fun _ => 0
    y := fun _ => 0
    alpha := fun _ => 0
    rho := fun _ => 0
    grad := (problem.gradient x).2
    q := 0
    grad_old := 0
    x_old := 0
    gamma_k := init_hess
    gradNorm := 0
    alpha_init := 1
    global_iter := 0
    maxIter := max_iters
    k := 0 }

/-- `LBFGS<Scalar,DIM,M>::minimize(problem, x)` for a solver with fields `max_iters`, `eps`,
`init_hess`, run with `fuel`: the returned `global_iter` and the `x` left in the caller's
vector. -/
def minimize (M : Nat) (linesearch : LineSearch K n) (max_iters : Int) (eps init_hess : K)
    (problem : Problem K n) (x : Vec K n) (fuel : Nat) : Option (Int × Vec K n) :=
  (loop M linesearch eps problem fuel (init max_iters init_hess problem x)).map
    fun r => (r.1.global_iter, r.1.x)

/-- The point `x` after line 117 (`x = x - rate * q`) of the iteration that starts in `st`. -/
def newPoint (M : Nat) (linesearch : LineSearch K n) (eps : K) (problem : Problem K n)
    (st : State K n) : Vec K n :=
  let st1 := chooseDirection M eps st
  st1.x - linesearch st1.x (-st1.q) problem st1.alpha_init • st1.q

/-- The vector `y_temp = grad - grad_old` of line 126 for the iteration that starts in `st`:
the gradient at the new point minus the gradient the iteration started with. -/
def yTemp (M : Nat) (linesearch : LineSearch K n) (eps : K) (problem : Problem K n)
    (st : State K n) : Vec K n :=
  (problem.gradient (newPoint M linesearch eps problem st)).2 - st.grad

/-- The two loops of the recursion (lines 91-102) run on a history given as a list of pairs
`(s_i, y_i)`, oldest first, from arrays `rho`, `alpha` that are zero. -/
def directionOf (pairs : List (Vec K n × Vec K n)) (gamma_k : K) (grad : Vec K n) : Vec K n :=
  let s : Nat → Vec K n := fun j => (pairs.getD j (0, 0)).1
  let y : Nat → Vec K n := fun j => (pairs.getD j (0, 0)).2
  let w := firstLoop s y pairs.length { rho := fun _ => 0, alpha := fun _ => 0, q := grad }
  secondLoop s y w.rho w.alpha pairs.length (gamma_k • w.q)

/-- The columns `0 .. min(len, M) - 1` of `s` and `y` hold the last `min(len, M)` pairs of the
list `h` (of length `len`), oldest first. -/
def Window (M : Nat) (s y : Nat → Vec K n) (h : List (Vec K n × Vec K n)) : Prop :=
  ∀ j : Nat, j < min h.length M → h[h.length - min h.length M + j]? = some (s j, y j)

/-- The pair `(s_temp, y_temp)` of lines 125-126 for an iteration that starts in `st` and leaves
its body in `st1`. -/
def newPair (st st1 : State K n) : Vec K n × Vec K n :=
  (st1.x - st.x, st1.grad - st.grad)

/-- The states in which the loop test of `LBFGS::minimize` is evaluated, each with the list of
the pairs `(s_temp, y_temp)` written into the history since the start or since the last
non-descent restart, oldest first. -/
inductive AtLoopTest (M : Nat) (linesearch : LineSearch K n) (eps : K) (problem : Problem K n)
    (st0 : State K n) : State K n → List (Vec K n × Vec K n) → Prop
  | start : AtLoopTest M linesearch eps problem st0 st0 []
  | next (st : State K n) (h : List (Vec K n × Vec K n)) :
      AtLoopTest M linesearch eps problem st0 st h →
      st.k < st.maxIter →
      (body M linesearch eps problem st).1 = false →
      AtLoopTest M linesearch eps problem st0
        { (body M linesearch eps problem st).2 with
          k := (body M linesearch eps problem st).2.k + 1 }
        ((if nonDescent M eps st then [] else h) ++
          [newPair st (body M linesearch eps problem st).2])

end LBFGS

namespace Backtracking
variable {K : Type} [LinearOrderedField K] {n : Nat}

/-- A call on the objective: `problem.gradient(x, grad)` or `problem.value(x)`, with the point
it is made at. -/
inductive Call (K : Type) (n : Nat) where
  | gradient (x : Vec K n) : Call K n
  | value (x : Vec K n) : Call K n

/-- Whether a call is a `problem.gradient` call. -/
def Call.isGradient : Call K n → Bool
  | Call.gradient _ => true
  | Call.value _ => false

/-- Whether a call is a `problem.value` call. -/
def Call.isValue : Call K n → Bool
  | Call.gradient _ => false
  | Call.value _ => true

/-- The calls `Backtracking::search` makes on `problem`, in order: `problem.gradient(x, grad)`
of line 80, then `problem.value(x + alpha*p)` of line 85 once for each run of the loop body. -/
def searchCalls (max_iters : Int) (decrease : K) (x p : Vec K n) (problem : Problem K n)
    (alpha0 : K) : List (Call K n) :=
  let fx0 := (problem.gradient x).1
  let gtp := dot (problem.gradient x).2 p
  let out := searchLoop decrease x p problem fx0 gtp max_iters.toNat 0 alpha0
  Call.gradient x :: out.trials.map (fun alpha => Call.value (x + alpha • p))

end Backtracking

namespace internal
variable {K : Type} [LinearOrderedField K]

/-- The vector `r = mult * A * B` of lines 52-58 of `internal::cubic`, as the pair
`(r[0], r[1])`. -/
def cubicCoeffs (fx0 gtp fxa alpha fxp alphap : K) : K × K :=
  let mult := 1 / (alpha * alpha * alphap * alphap * (alpha - alphap))
  let a00 := alphap * alphap
  let a01 := -alpha * alpha
  let a10 := -alphap * alphap * alphap
  let a11 := alpha * alpha * alpha
  let b0 := fxa - fx0 - alpha * gtp
  let b1 := fxp - fx0 - alphap * gtp
  (mult * a00 * b0 + mult * a01 * b1, mult * a10 * b0 + mult * a11 * b1)

/-- The cubic `c(t) = r0*t^3 + r1*t^2 + gtp*t + fx0` the interpolation fits. -/
def cubicModel (r0 r1 gtp fx0 t : K) : K :=
  r0 * t ^ 3 + r1 * t ^ 2 + gtp * t + fx0

/-- The derivative `c'(t) = 3*r0*t^2 + 2*r1*t + gtp` of `cubicModel`. -/
def cubicModelDeriv (r0 r1 gtp t : K) : K :=
  3 * r0 * t ^ 2 + 2 * r1 * t + gtp

/-- The second derivative `c''(t) = 6*r0*t + 2*r1` of `cubicModel`. -/
def cubicModelDeriv2 (r0 r1 t : K) : K :=
  6 * r0 * t + 2 * r1

end internal

namespace BacktrackingCurvature
variable {K : Type} [LinearOrderedField K] {n : Nat}

open Backtracking (sufficientDecrease)

/-- The candidate step of line 127, computed at the first rejected trial. -/
def quadraticCandidate (fx0 gtp fxa : K) : K :=
  gtp / (2 * (fx0 + gtp - fxa))

/-- The quadratic `q` with `q(0) = fx0`, `q'(0) = gtp` and `q(alpha0) = fxa`:
`q(t) = ((fxa - fx0 - gtp*alpha0) / alpha0^2) * t^2 + gtp*t + fx0`. -/
def fittedQuadratic (fx0 gtp alpha0 fxa t : K) : K :=
  (fxa - fx0 - gtp * alpha0) / (alpha0 * alpha0) * (t * t) + gtp * t + fx0

/-- The arguments of one call `internal::cubic( fx0, gtp, fxa, alpha, fxp, alphap )`. -/
structure CubicCall (K : Type) where
  fx0 : K
  gtp : K
  fxa : K
  alpha : K
  fxp : K
  alphap : K

/-- The calls of `internal::cubic` the loop of `BacktrackingCurvature::search` makes, in
order: one for each rejected trial with `iter != 0`. -/
def cubicCalls (sqrt : K → K) (decrease : K) (x p : Vec K n) (problem : Problem K n)
    (fx0 gtp : K) : Nat → LoopState K → List (CubicCall K)
  | 0, _ => []
  | r + 1, st =>
    if sufficientDecrease decrease x p problem fx0 gtp st.alpha then []
    else
      let fxa := problem.value (x + st.alpha • p)
      (if st.iter = 0 then [] else [⟨fx0, gtp, fxa, st.alpha, st.fxp, st.alphap⟩]) ++
        cubicCalls sqrt decrease x p problem fx0 gtp r (refine sqrt fx0 gtp fxa st)

/-- The calls of `internal::cubic` made by `BacktrackingCurvature::search`. -/
def searchCubicCalls (sqrt : K → K) (max_iters : Int) (decrease : K) (x p : Vec K n)
    (problem : Problem K n) (alpha0 : K) : List (CubicCall K) :=
  let fx0 := (problem.gradient x).1
  let gtp := dot (problem.gradient x).2 p
  cubicCalls sqrt decrease x p problem fx0 gtp max_iters.toNat ⟨0, alpha0, fx0, alpha0⟩

end BacktrackingCurvature

namespace LBFGS
variable {K : Type} [LinearOrderedField K] {n : Nat}

/-- The BFGS inverse-Hessian estimate (Nocedal & Wright, Section 7.2) built from the pairs
`(s_0, y_0), ..., (s_{m-1}, y_{m-1})`, oldest first: `H_0 = gamma_k * I` and
`H_{i+1} = (I - rho_i s_i y_i^T) H_i (I - rho_i y_i s_i^T) + rho_i s_i s_i^T` with
`rho_i = 1 / (s_i . y_i)`. -/
def bfgsInverseHessian (s y : Nat → Vec K n) (gamma_k : K) :
    Nat → Matrix (Fin n) (Fin n) K
  | 0 => gamma_k • (1 : Matrix (Fin n) (Fin n) K)
  | i + 1 =>
    let rho := 1 / dot (s i) (y i)
    (1 - rho • Matrix.vecMulVec (s i) (y i)) * bfgsInverseHessian s y gamma_k i *
        (1 - rho • Matrix.vecMulVec (y i) (s i)) +
      rho • Matrix.vecMulVec (s i) (s i)

end LBFGS

namespace LBFGS
variable {K : Type} [LinearOrderedField K] {n : Nat}

/-- The step length `rate` of lines 113-114 for the iteration that starts in `st`: the result
of the line search from `x` along `-q` with first step `alpha_init`. -/
def rate (M : Nat) (linesearch : LineSearch K n) (eps : K) (problem : Problem K n)
    (st : State K n) : K :=
  let st1 := chooseDirection M eps st
  linesearch st1.x (-st1.q) problem st1.alpha_init

end LBFGS

/-- A scalar of a floating type as the interpolating line search meets it: a number of `K` or
NaN. Infinities are not modelled: a division by zero is the total division of `K`. -/
inductive Fp (K : Type) where
  | num (v : K) : Fp K
  | nan : Fp K

namespace Fp
variable {K : Type} [LinearOrderedField K]

/-- An arithmetic operation on floating scalars: NaN as soon as an operand is NaN. -/
def map2 (f : K → K → K) : Fp K → Fp K → Fp K
  | num a, num b => num (f a b)
  | _, _ => nan

instance : Add (Fp K) := ⟨map2 (fun a b => a + b)⟩

instance : Sub (Fp K) := ⟨map2 (fun a b => a - b)⟩

instance : Mul (Fp K) := ⟨map2 (fun a b => a * b)⟩

instance : Div (Fp K) := ⟨map2 (fun a b => a / b)⟩

/-- Unary minus: NaN stays NaN. -/
def neg : Fp K → Fp K
  | num a => num (-a)
  | nan => nan

instance : Neg (Fp K) := ⟨neg⟩

/-- `std::abs`: NaN stays NaN. -/
def abs : Fp K → Fp K
  | num a => num |a|
  | nan => nan

/-- `std::sqrt`: NaN at a negative argument and at NaN, the square root `sqrt v` otherwise. -/
def sqrt (sqrt : K → K) : Fp K → Fp K
  | num v => if v < 0 then nan else num (sqrt v)
  | nan => nan

/-- The comparison `a < b` of floating scalars: false as soon as an operand is NaN. -/
def lt : Fp K → Fp K → Prop
  | num a, num b => a < b
  | _, _ => False

/-- The comparison `a <= b` of floating scalars: false as soon as an operand is NaN. -/
def le : Fp K → Fp K → Prop
  | num a, num b => a ≤ b
  | _, _ => False

instance (a b : Fp K) : Decidable (lt a b) := by
  cases a <;> cases b <;> unfold lt <;> infer_instance

instance (a b : Fp K) : Decidable (le a b) := by
  cases a <;> cases b <;> unfold le <;> infer_instance

end Fp

namespace internal
variable {K : Type} [LinearOrderedField K]

/-- The clamp `internal::range( alpha, low, high )` on floating scalars: with a NaN argument
both comparisons are false and `alpha` is returned. -/
def rangeFp (alpha low high : Fp K) : Fp K :=
  if Fp.lt alpha low then low
  else if Fp.lt high alpha then high
  else alpha

/-- The interpolation `internal::cubic( fx0, gtp, fxa, alpha, fxp, alphap )` on floating
scalars. -/
def cubicFp (sqrt : K → K) (fx0 gtp fxa alpha fxp alphap : Fp K) : Fp K :=
  let mult := Fp.num 1 / (alpha * alpha * alphap * alphap * (alpha - alphap))
  let a00 := alphap * alphap
  let a01 := -alpha * alpha
  let a10 := -alphap * alphap * alphap
  let a11 := alpha * alpha * alpha
  let b0 := fxa - fx0 - alpha * gtp
  let b1 := fxp - fx0 - alphap * gtp
  let r0 := mult * a00 * b0 + mult * a01 * b1
  let r1 := mult * a10 * b0 + mult * a11 * b1
  if Fp.le (Fp.abs r0) (Fp.num 0) then -gtp / (Fp.num 2 * r1)
  else
    let d := Fp.sqrt sqrt (r1 * r1 - Fp.num 3 * r0 * gtp)
    (-r1 + d) / (Fp.num 3 * r0)

end internal

namespace BacktrackingCurvature
variable {K : Type} [LinearOrderedField K] {n : Nat}

/-- The loop variables of `BacktrackingCurvature::search` as floating scalars. -/
structure LoopStateFp (K : Type) where
  iter : Int
  alpha : Fp K
  fxp : Fp K
  alphap : Fp K

/-- What the loop on floating scalars leaves behind: `iter` and `alpha` at loop exit, and the
steps at which `problem.value` was evaluated, in order. -/
structure LoopExitFp (K : Type) where
  iter : Int
  alpha : Fp K
  trials : List (Fp K)

/-- The value `problem.value(x + alpha*p)` for a floating step: at a NaN step the point has NaN
coordinates, and what the objective returns there is the parameter `atNaN`. -/
def valueFp (problem : Problem K n) (x p : Vec K n) (atNaN : Fp K) : Fp K → Fp K
  | Fp.num a => Fp.num (problem.value (x + a • p))
  | Fp.nan => atNaN

/-- Lines 126-131 and the `++iter` of the loop header, on floating scalars. -/
def refineFp (sqrt : K → K) (fx0 gtp fxa : Fp K) (st : LoopStateFp K) : LoopStateFp K :=
  let alpha_tmp :=
    if st.iter = 0 then gtp / (Fp.num 2 * (fx0 + gtp - fxa))
    else internal.cubicFp sqrt fx0 gtp fxa st.alpha st.fxp st.alphap
  { iter := st.iter + 1
    fxp := fxa
    alphap := st.alpha
    alpha := internal.rangeFp alpha_tmp (Fp.num (1 / 10) * st.alpha)
      (Fp.num (1 / 2) * st.alpha) }

/-- The loop `for( ; iter < max_iters; ++iter )` of `BacktrackingCurvature::search` on floating
scalars, by recursion on the number of loop tests that can still succeed. -/
def searchLoopFp (sqrt : K → K) (decrease : K) (x p : Vec K n) (problem : Problem K n)
    (atNaN fx0 gtp : Fp K) : Nat → LoopStateFp K → LoopExitFp K
  | 0, st => ⟨st.iter, st.alpha, []⟩
  | r + 1, st =>
    let fxa := valueFp problem x p atNaN st.alpha
    let fx0_fxa := fx0 + st.alpha * Fp.num decrease * gtp
    if Fp.le fxa fx0_fxa then ⟨st.iter, st.alpha, [st.alpha]⟩
    else
      let out := searchLoopFp sqrt decrease x p problem atNaN fx0 gtp r
        (refineFp sqrt fx0 gtp fxa st)
      ⟨out.iter, out.alpha, st.alpha :: out.trials⟩

/-- `BacktrackingCurvature::search(max_iters, decrease, x, p, problem, alpha0)` on floating
scalars. -/
def searchFp (sqrt : K → K) (max_iters : Int) (decrease : K) (x p : Vec K n)
    (problem : Problem K n) (atNaN : Fp K) (alpha0 : K) : Fp K :=
  let fx0 := Fp.num (problem.gradient x).1
  let gtp := Fp.num (dot (problem.gradient x).2 p)
  let out := searchLoopFp sqrt decrease x p problem atNaN fx0 gtp max_iters.toNat
    ⟨0, Fp.num alpha0, fx0, Fp.num alpha0⟩
  if out.iter = max_iters then Fp.num (-1) else out.alpha

/-- The steps a call of `BacktrackingCurvature::search` on floating scalars goes through: the
evaluated trial steps, followed, when the loop ran out of trials, by the step it had prepared
for the next trial. -/
def searchStepsFp (sqrt : K → K) (max_iters : Int) (decrease : K) (x p : Vec K n)
    (problem : Problem K n) (atNaN : Fp K) (alpha0 : K) : List (Fp K) :=
  let fx0 := Fp.num (problem.gradient x).1
  let gtp := Fp.num (dot (problem.gradient x).2 p)
  let out := searchLoopFp sqrt decrease x p problem atNaN fx0 gtp max_iters.toNat
    ⟨0, Fp.num alpha0, fx0, Fp.num alpha0⟩
  out.trials ++ (if out.iter = 0 + (max_iters.toNat : Int) then [out.alpha] else [])

/-- The arguments of one call `internal::cubic( fx0, gtp, fxa, alpha, fxp, alphap )` on floating
scalars. -/
structure CubicCallFp (K : Type) where
  fx0 : Fp K
  gtp : Fp K
  fxa : Fp K
  alpha : Fp K
  fxp : Fp K
  alphap : Fp K

/-- The calls of `internal::cubic` the loop on floating scalars makes, in order: one for each
rejected trial with `iter != 0`. -/
def cubicCallsFp (sqrt : K → K) (decrease : K) (x p : Vec K n) (problem : Problem K n)
    (atNaN fx0 gtp : Fp K) : Nat → LoopStateFp K → List (CubicCallFp K)
  | 0, _ => []
  | r + 1, st =>
    let fxa := valueFp problem x p atNaN st.alpha
    let fx0_fxa := fx0 + st.alpha * Fp.num decrease * gtp
    if Fp.le fxa fx0_fxa then []
    else
      (if st.iter = 0 then [] else [⟨fx0, gtp, fxa, st.alpha, st.fxp, st.alphap⟩]) ++
        cubicCallsFp sqrt decrease x p problem atNaN fx0 gtp r (refineFp sqrt fx0 gtp fxa st)

/-- The calls of `internal::cubic` made by `BacktrackingCurvature::search` on floating
scalars. -/
def searchCubicCallsFp (sqrt : K → K) (max_iters : Int) (decrease : K) (x p : Vec K n)
    (problem : Problem K n) (atNaN : Fp K) (alpha0 : K) : List (CubicCallFp K) :=
  let fx0 := Fp.num (problem.gradient x).1
  let gtp := Fp.num (dot (problem.gradient x).2 p)
  cubicCallsFp sqrt decrease x p problem atNaN fx0 gtp max_iters.toNat
    ⟨0, Fp.num alpha0, fx0, Fp.num alpha0⟩

end BacktrackingCurvature

section TestProblem
variable {K : Type} [LinearOrderedField K] {n : Nat}

end TestProblem

namespace Examples

/-- The one-dimensional objective `f(x) = x^2` with its gradient `2x`. -/
def square : Problem ℚ 1 :=
  { value := fun x => x 0 * x 0
    gradient := fun x => (x 0 * x 0, fun _ => 2 * x 0) }

/-- The one-dimensional objective `f(x) = -10x^3 + (33/2)x^2 - 2x` with its gradient
`-30x^2 + 33x - 2`. -/
def cubicObjective : Problem ℚ 1 :=
  { value := fun x => -10 * (x 0 * x 0 * x 0) + 33 / 2 * (x 0 * x 0) - 2 * x 0
    gradient := fun x =>
      (-10 * (x 0 * x 0 * x 0) + 33 / 2 * (x 0 * x 0) - 2 * x 0,
        fun _ => -30 * (x 0 * x 0) + 33 * x 0 - 2) }

/-- The one-dimensional objective `f(x) = x` with its gradient `1`. -/
def linear : Problem ℚ 1 :=
  { value := fun x => x 0
    gradient := fun x => (x 0, fun _ => 1) }

/-- The one-dimensional point with coordinate `c`. -/
def pt (c : ℚ) : Vec ℚ 1 := fun _ => c

/-- A line search for the solvers: the Armijo backtracking of `Backtracking::search` with twenty
trials and decrease constant `1/2`. -/
def armijo : LineSearch ℚ 1 :=
  fun x p problem alpha_init => Backtracking.search 20 (1 / 2) x p problem alpha_init

/-- The state in which `LBFGS::minimize` (`M = 8`, `max_iters = 2`, `eps = 0`, `init_hess = 1`)
enters its loop on `f(x) = x^2` from `x = 1`. -/
def lbfgsEntry : LBFGS.State ℚ 1 := LBFGS.init 2 1 square (pt 1)

/-- The state at the second loop test of that run. -/
def lbfgsSecond : LBFGS.State ℚ 1 :=
  { (LBFGS.body 8 armijo 0 square lbfgsEntry).2 with
    k := (LBFGS.body 8 armijo 0 square lbfgsEntry).2.k + 1 }

/-- The pairs in the history at the second loop test of that run. -/
def lbfgsSecondHistory : List (Vec ℚ 1 × Vec ℚ 1) :=
  (if LBFGS.nonDescent 8 0 lbfgsEntry then [] else []) ++
    [LBFGS.newPair lbfgsEntry (LBFGS.body 8 armijo 0 square lbfgsEntry).2]

/-- A state of `LBFGS::minimize` with one pair `s_0 = (2)`, `y_0 = (3)` in the history,
`k = 1`, scale `gamma_k = 5` and gradient `(3)`. -/
def secantState : LBFGS.State ℚ 1 :=
  { x := pt 0
    s := fun _ => pt 2
    y := fun _ => pt 3
    alpha := fun _ => 0
    rho := fun _ => 0
    grad := pt 3
    q := pt 0
    grad_old := pt 0
    x_old := pt 0
    gamma_k := 5
    gradNorm := 0
    alpha_init := 1
    global_iter := 1
    maxIter := 10
    k := 1 }

/-- The one-dimensional objective `f(x) = -x^3 + (13/8)x^2 - x`, which decreases everywhere, with
its gradient `-3x^2 + (13/4)x - 1`. -/
def decreasingCubic : Problem ℚ 1 :=
  { value := fun x => -(x 0 * x 0 * x 0) + 13 / 8 * (x 0 * x 0) - x 0
    gradient := fun x =>
      (-(x 0 * x 0 * x 0) + 13 / 8 * (x 0 * x 0) - x 0,
        fun _ => -3 * (x 0 * x 0) + 13 / 4 * x 0 - 1) }

end Examples

end optlib
end mcl

/-! ## Theorems -/

namespace mcl
namespace optlib

namespace internal
variable {K : Type} [LinearOrderedField K]

theorem range_mem (alpha low high : K) (h : low ≤ high) :
    low ≤ range alpha low high ∧ range alpha low high ≤ high := by
  unfold range
  split_ifs with h1 h2
  · exact ⟨le_refl _, h⟩
  · exact ⟨h, le_refl _⟩
  · exact ⟨not_lt.mp h1, not_lt.mp h2⟩

end internal

namespace Backtracking
variable {K : Type} [LinearOrderedField K] {n : Nat}

theorem tau_pos : (0 : K) < tau := by
  unfold tau; norm_num

/-- The loop of `Backtracking::search` run for at most `r` trials from `(iter, alpha)`: it leaves
after `j ≤ r` rejected trials, at the step `alpha * tau ^ j`; it left by `break` exactly when
`j < r`, and then that step passes the test. -/
theorem searchLoop_spec (decrease : K) (x p : Vec K n) (problem : Problem K n) (fx0 gtp : K) :
    ∀ (r : Nat) (iter : Int) (alpha : K),
      ∃ j : Nat, j ≤ r ∧
        (searchLoop decrease x p problem fx0 gtp r iter alpha).iter = iter + j ∧
        (searchLoop decrease x p problem fx0 gtp r iter alpha).alpha = alpha * tau ^ j ∧
        (searchLoop decrease x p problem fx0 gtp r iter alpha).trials =
          (List.range (if j < r then j + 1 else r)).map (fun i => alpha * tau ^ i) ∧
        (∀ i < j, ¬ sufficientDecrease decrease x p problem fx0 gtp (alpha * tau ^ i)) ∧
        (j < r → sufficientDecrease decrease x p problem fx0 gtp (alpha * tau ^ j)) := by
  intro r
  induction r with
  | zero =>
    intro iter alpha
    exact ⟨0, le_refl _, by simp [searchLoop], by simp [searchLoop], by simp [searchLoop],
      by intro i hi; omega, by intro h; omega⟩
  | succ r ih =>
    intro iter alpha
    by_cases hs : sufficientDecrease decrease x p problem fx0 gtp alpha
    · refine ⟨0, Nat.zero_le _, ?_, ?_, ?_, ?_, ?_⟩
      · simp [searchLoop, hs]
      · simp [searchLoop, hs]
      · simp [searchLoop, hs, List.range_succ]
      · intro i hi; omega
      · intro _; simpa using hs
    · obtain ⟨j, hj, h1, h2, h3, h4, h5⟩ := ih (iter + 1) (alpha * tau)
      refine ⟨j + 1, by omega, ?_, ?_, ?_, ?_, ?_⟩
      · simp [searchLoop, hs, h1]; ring
      · simp [searchLoop, hs, h2]; ring
      · simp only [searchLoop, hs, if_false, h3]
        have e : (if j + 1 < r + 1 then j + 1 + 1 else r + 1)
            = (if j < r then j + 1 else r) + 1 := by
          split_ifs <;> omega
        rw [e, List.range_succ_eq_map, List.map_cons, List.map_map]
        simp only [pow_zero, mul_one, List.cons.injEq, true_and]
        apply List.map_congr_left
        intro i _
        simp only [Function.comp, pow_succ]
        ring
      · intro i hi
        cases i with
        | zero => simpa using hs
        | succ i =>
          have := h4 i (by omega)
          have e : alpha * tau ^ (i + 1) = alpha * tau * tau ^ i := by ring
          rw [e]; exact this
      · intro hlt
        have := h5 (by omega)
        have e : alpha * tau ^ (j + 1) = alpha * tau * tau ^ j := by ring
        rw [e]; exact this

/-- With a non-negative trial budget and a positive first step, a non-sentinel result of
`Backtracking::search` is a positive step that passes the sufficient-decrease test. -/
theorem search_armijo_of_nonneg (max_iters : Int) (decrease : K) (x p : Vec K n)
    (problem : Problem K n) (alpha0 : K) (hm : 0 ≤ max_iters) (h0 : 0 < alpha0)
    (hne : search max_iters decrease x p problem alpha0 ≠ -1) :
    0 < search max_iters decrease x p problem alpha0 ∧
    problem.value (x + search max_iters decrease x p problem alpha0 • p) ≤
      (problem.gradient x).1 +
        decrease * search max_iters decrease x p problem alpha0 * dot (problem.gradient x).2 p := by
  obtain ⟨j, hj, h1, h2, _, h4, h5⟩ := searchLoop_spec decrease x p problem
    (problem.gradient x).1 (dot (problem.gradient x).2 p) max_iters.toNat 0 alpha0
  have hcast : (max_iters.toNat : Int) = max_iters := Int.toNat_of_nonneg hm
  unfold search at hne ⊢
  simp only [h1, h2] at hne ⊢
  by_cases hjr : j < max_iters.toNat
  · have hne2 : ¬ ((0 : Int) + j = max_iters) := by omega
    simp only [hne2, if_false]
    refine ⟨mul_pos h0 (pow_pos tau_pos j), ?_⟩
    have := h5 hjr
    unfold sufficientDecrease at this
    calc problem.value (x + (alpha0 * tau ^ j) • p)
        ≤ (problem.gradient x).1 + alpha0 * tau ^ j * decrease * dot (problem.gradient x).2 p := this
      _ = _ := by ring
  · have he : (0 : Int) + j = max_iters := by omega
    simp [he] at hne

end Backtracking

namespace BacktrackingCurvature
variable {K : Type} [LinearOrderedField K] {n : Nat}

open Backtracking (LoopExit sufficientDecrease)

theorem refine_alpha_mem (sqrt : K → K) (fx0 gtp fxa : K) (st : LoopState K)
    (h : 0 < st.alpha) :
    1 / 10 * st.alpha ≤ (refine sqrt fx0 gtp fxa st).alpha ∧
      (refine sqrt fx0 gtp fxa st).alpha ≤ 1 / 2 * st.alpha := by
  unfold refine
  exact internal.range_mem _ _ _ (by nlinarith)

theorem refine_iter (sqrt : K → K) (fx0 gtp fxa : K) (st : LoopState K) :
    (refine sqrt fx0 gtp fxa st).iter = st.iter + 1 := rfl

/-- The loop of `BacktrackingCurvature::search` run for at most `r` trials from a state with a
positive step. -/
theorem searchLoop_safeguarded (sqrt : K → K) (decrease : K) (x p : Vec K n) (problem : Problem K n)
    (fx0 gtp : K) :
    ∀ (r : Nat) (st : LoopState K), 0 < st.alpha →
      0 < (searchLoop sqrt decrease x p problem fx0 gtp r st).alpha ∧
      st.iter ≤ (searchLoop sqrt decrease x p problem fx0 gtp r st).iter ∧
      (searchLoop sqrt decrease x p problem fx0 gtp r st).iter ≤ st.iter + r ∧
      ((searchLoop sqrt decrease x p problem fx0 gtp r st).iter < st.iter + r →
        sufficientDecrease decrease x p problem fx0 gtp
          (searchLoop sqrt decrease x p problem fx0 gtp r st).alpha) ∧
      ((searchLoop sqrt decrease x p problem fx0 gtp r st).iter = st.iter + r →
        (searchLoop sqrt decrease x p problem fx0 gtp r st).trials.length = r ∧
        ∀ a ∈ (searchLoop sqrt decrease x p problem fx0 gtp r st).trials,
          ¬ sufficientDecrease decrease x p problem fx0 gtp a) ∧
      (steps (searchLoop sqrt decrease x p problem fx0 gtp r st)
        ((searchLoop sqrt decrease x p problem fx0 gtp r st).iter = st.iter + r)).head?
          = some st.alpha ∧
      List.Chain' Safeguarded (steps (searchLoop sqrt decrease x p problem fx0 gtp r st)
        ((searchLoop sqrt decrease x p problem fx0 gtp r st).iter = st.iter + r)) := by
  intro r
  induction r with
  | zero =>
    intro st h
    simp [searchLoop, steps, h]
  | succ r ih =>
    intro st h
    by_cases hs : sufficientDecrease decrease x p problem fx0 gtp st.alpha
    · have hne : ¬ (st.iter = st.iter + ((r : Int) + 1)) := by omega
      have hlt : st.iter < st.iter + ((r : Int) + 1) := by omega
      simp [searchLoop, hs, steps, h, hne, hlt]
      omega
    · have hr := refine_alpha_mem sqrt fx0 gtp (problem.value (x + st.alpha • p)) st h
      have hpos : 0 < (refine sqrt fx0 gtp (problem.value (x + st.alpha • p)) st).alpha := by
        nlinarith [hr.1]
      obtain ⟨h1, h2, h3, h4, h5, h6, h7⟩ :=
        ih (refine sqrt fx0 gtp (problem.value (x + st.alpha • p)) st) hpos
      rw [refine_iter] at h2 h3 h4 h5 h6 h7
      have e : ∀ z : Int, (z = st.iter + 1 + (r : Int)) = (z = st.iter + ((r + 1 : Nat) : Int)) := by
        intro z; apply propext; constructor <;> intro hz <;> push_cast at * <;> omega
      simp only [searchLoop, hs, if_false]
      refine ⟨h1, by omega, by push_cast; omega, ?_, ?_, ?_, ?_⟩
      · intro hlt
        exact h4 (by push_cast at hlt; omega)
      · intro heq
        have := h5 (by push_cast at heq; omega)
        refine ⟨by simp [this.1], ?_⟩
        intro a ha
        rcases List.mem_cons.mp ha with rfl | ha
        · exact hs
        · exact this.2 a ha
      · simp [steps]
      · simp only [steps, List.cons_append] at h6 h7 ⊢
        rw [List.chain'_cons']
        refine ⟨?_, ?_⟩
        · intro b hb
          have hb2 : b = (refine sqrt fx0 gtp (problem.value (x + st.alpha • p)) st).alpha := by
            simp only [← e] at hb
            rw [h6] at hb
            simpa using hb.symm
          rw [hb2]
          exact ⟨h, hpos, hr.1, hr.2⟩
        · simpa only [← e] using h7

end BacktrackingCurvature

end optlib
end mcl

namespace mcl
namespace optlib

open Examples

/-- C1, at the failing input `max_iters = -1`: the loop body never runs and the exit test
`iter == max_iters` compares `0` with `-1`, so `Backtracking::search` returns `alpha0 = 1`
instead of the sentinel, although the objective value `4` at `x + 1*p` exceeds the bound
`fx0 + decrease*1*(grad . p) = 2`. -/
theorem Backtracking.search_negative_cap_returns_untested_step :
    Backtracking.search (-1) (1 / 2) (pt 1) (pt 1) square 1 = 1 ∧
    (1 : ℚ) ≠ -1 ∧
    ¬ (square.value (pt 1 + (1 : ℚ) • pt 1) ≤
        (square.gradient (pt 1)).1 + 1 / 2 * 1 * dot (square.gradient (pt 1)).2 (pt 1)) := by
  refine ⟨?_, by norm_num, ?_⟩
  · norm_num [Backtracking.search, Backtracking.searchLoop]
  · norm_num [square, pt, dot]

/-- C2, at the failing input `max_iters = -1`: there is no trial step `alpha0 * 0.7^i` with
`0 <= i < max_iters`, so none passes the test, and yet `Backtracking::search` does not return
the sentinel `-1`. -/
theorem Backtracking.search_negative_cap_not_sentinel :
    (∀ i : Nat, (i : Int) < -1 →
      ¬ Backtracking.sufficientDecrease (1 / 2) (pt 2) (pt 1) square (square.gradient (pt 2)).1
        (dot (square.gradient (pt 2)).2 (pt 1)) (3 * Backtracking.tau ^ i)) ∧
    Backtracking.search (-1) (1 / 2) (pt 2) (pt 1) square 3 ≠ -1 := by
  refine ⟨?_, ?_⟩
  · intro i hi
    omega
  · norm_num [Backtracking.search, Backtracking.searchLoop]

/-- C3, at the failing input `max_iters = -1`: `BacktrackingCurvature::search` evaluates no
trial step and returns `alpha0 = 1` instead of the sentinel, a step that fails the
sufficient-decrease test (`4 > 2`). -/
theorem BacktrackingCurvature.curvature_search_negative_cap_untested :
    BacktrackingCurvature.search (fun t : ℚ => t) (-1) (1 / 2) (pt 1) (pt 1) square 1 = 1 ∧
    (BacktrackingCurvature.searchLoop (fun t : ℚ => t) (1 / 2) (pt 1) (pt 1) square
      (square.gradient (pt 1)).1 (dot (square.gradient (pt 1)).2 (pt 1)) (Int.toNat (-1))
      ⟨0, 1, (square.gradient (pt 1)).1, 1⟩).trials = [] ∧
    ¬ Backtracking.sufficientDecrease (1 / 2) (pt 1) (pt 1) square (square.gradient (pt 1)).1
        (dot (square.gradient (pt 1)).2 (pt 1)) 1 := by
  refine ⟨?_, ?_, ?_⟩
  · norm_num [BacktrackingCurvature.search, BacktrackingCurvature.searchLoop]
  · norm_num [BacktrackingCurvature.searchLoop]
  · norm_num [Backtracking.sufficientDecrease, square, pt, dot]

namespace BacktrackingCurvature
variable {K : Type} [LinearOrderedField K] {n : Nat}

theorem pos_of_chain (l : List K) (hc : List.Chain' Safeguarded l) :
    (∀ a ∈ l.head?, 0 < a) → ∀ a ∈ l, 0 < a := by
  induction l with
  | nil => intro _ a ha; simp at ha
  | cons b l ih =>
    intro hb a ha
    rw [List.chain'_cons'] at hc
    rcases List.mem_cons.mp ha with rfl | ha
    · exact hb _ (by simp)
    · exact ih hc.2 (fun c hcm => (hc.1 c hcm).2.1) a ha

theorem searchSteps_chain (sqrt : K → K) (max_iters : Int) (decrease : K) (x p : Vec K n)
    (problem : Problem K n) (alpha0 : K) (h0 : 0 < alpha0) :
    (searchSteps sqrt max_iters decrease x p problem alpha0).head? = some alpha0 ∧
    List.Chain' Safeguarded (searchSteps sqrt max_iters decrease x p problem alpha0) := by
  have h := searchLoop_safeguarded sqrt decrease x p problem (problem.gradient x).1
    (dot (problem.gradient x).2 p) max_iters.toNat ⟨0, alpha0, (problem.gradient x).1, alpha0⟩ h0
  exact ⟨h.2.2.2.2.2.1, h.2.2.2.2.2.2⟩

/-- With a non-negative trial budget and a positive first step: when
`BacktrackingCurvature::search` returns the sentinel, it evaluated `max_iters` trial steps and
rejected each; otherwise it returns a positive step that passes the sufficient-decrease test. -/
theorem search_spec_of_nonneg (sqrt : K → K) (max_iters : Int) (decrease : K) (x p : Vec K n)
    (problem : Problem K n) (alpha0 : K) (hm : 0 ≤ max_iters) (h0 : 0 < alpha0) :
    (search sqrt max_iters decrease x p problem alpha0 = -1 →
      ((searchLoop sqrt decrease x p problem (problem.gradient x).1
        (dot (problem.gradient x).2 p) max_iters.toNat
        ⟨0, alpha0, (problem.gradient x).1, alpha0⟩).trials.length : Int) = max_iters ∧
      ∀ a ∈ (searchLoop sqrt decrease x p problem (problem.gradient x).1
        (dot (problem.gradient x).2 p) max_iters.toNat
        ⟨0, alpha0, (problem.gradient x).1, alpha0⟩).trials,
        ¬ Backtracking.sufficientDecrease decrease x p problem (problem.gradient x).1
          (dot (problem.gradient x).2 p) a) ∧
    (search sqrt max_iters decrease x p problem alpha0 ≠ -1 →
      0 < search sqrt max_iters decrease x p problem alpha0 ∧
      Backtracking.sufficientDecrease decrease x p problem (problem.gradient x).1
        (dot (problem.gradient x).2 p) (search sqrt max_iters decrease x p problem alpha0)) := by
  obtain ⟨h1, h2, h3, h4, h5, _, _⟩ := searchLoop_safeguarded sqrt decrease x p problem
    (problem.gradient x).1 (dot (problem.gradient x).2 p) max_iters.toNat
    ⟨0, alpha0, (problem.gradient x).1, alpha0⟩ h0
  have hcast : (max_iters.toNat : Int) = max_iters := Int.toNat_of_nonneg hm
  simp only [zero_add] at h2 h3 h4 h5
  unfold search
  simp only
  split_ifs with he
  · refine ⟨fun _ => ?_, fun hne => absurd rfl hne⟩
    obtain ⟨hl, hall⟩ := h5 (by omega)
    exact ⟨by omega, hall⟩
  · refine ⟨fun hs => ?_, fun _ => ⟨h1, h4 (by omega)⟩⟩
    rw [hs] at h1
    exact absurd h1 (by norm_num)

end BacktrackingCurvature

/-- In exact arithmetic, where every candidate `alpha_tmp` is a number: with `alpha0 > 0` the
clamp puts the next step in `[0.1*alpha, 0.5*alpha]` for the step `alpha > 0` just rejected;
consecutive steps of a call are related in that way, every step is positive, and the steps
strictly decrease. For the floating scalars of the source the candidate can be NaN, see
`rangeFp_nan` and `refineFp_alpha_mem_or_nan`. -/
theorem BacktrackingCurvature.trial_steps_safeguarded {K : Type} [LinearOrderedField K] {n : Nat}
    (sqrt : K → K) (max_iters : Int) (decrease : K) (x p : Vec K n) (problem : Problem K n)
    (alpha0 : K) (h0 : 0 < alpha0) :
    (∀ alpha_tmp alpha : K, 0 < alpha →
      1 / 10 * alpha ≤ internal.range alpha_tmp (1 / 10 * alpha) (1 / 2 * alpha) ∧
      internal.range alpha_tmp (1 / 10 * alpha) (1 / 2 * alpha) ≤ 1 / 2 * alpha) ∧
    List.Chain' (fun alpha_prev alpha_next =>
        1 / 10 * alpha_prev ≤ alpha_next ∧ alpha_next ≤ 1 / 2 * alpha_prev)
      (BacktrackingCurvature.searchSteps sqrt max_iters decrease x p problem alpha0) ∧
    (∀ a ∈ BacktrackingCurvature.searchSteps sqrt max_iters decrease x p problem alpha0, 0 < a) ∧
    List.Chain' (fun alpha_prev alpha_next => alpha_next < alpha_prev)
      (BacktrackingCurvature.searchSteps sqrt max_iters decrease x p problem alpha0) := by
  have hc := BacktrackingCurvature.searchSteps_chain sqrt max_iters decrease x p problem alpha0 h0
  refine ⟨?_, ?_, ?_, ?_⟩
  · intro alpha_tmp alpha ha
    exact internal.range_mem _ _ _ (by nlinarith)
  · exact hc.2.imp (fun _ _ h => ⟨h.2.2.1, h.2.2.2⟩)
  · apply BacktrackingCurvature.pos_of_chain _ hc.2
    intro a ha
    rw [hc.1] at ha
    cases ha
    exact h0
  · exact hc.2.imp (fun a b h => by have := h.1; have := h.2.2.2; linarith)

/-- The steps of a run in exact arithmetic on `f(x) = x^2` from `x = 1` along `p = 1` with
`alpha0 = 1` and five trials. -/
theorem BacktrackingCurvature.trial_steps_safeguarded_witness :
    (0 : ℚ) < 1 ∧
    ((∀ alpha_tmp alpha : ℚ, 0 < alpha →
      1 / 10 * alpha ≤ internal.range alpha_tmp (1 / 10 * alpha) (1 / 2 * alpha) ∧
      internal.range alpha_tmp (1 / 10 * alpha) (1 / 2 * alpha) ≤ 1 / 2 * alpha) ∧
    List.Chain' (fun alpha_prev alpha_next =>
        1 / 10 * alpha_prev ≤ alpha_next ∧ alpha_next ≤ 1 / 2 * alpha_prev)
      (BacktrackingCurvature.searchSteps (fun t : ℚ => t) 5 (1 / 2) (pt 1) (pt 1) square 1) ∧
    (∀ a ∈ BacktrackingCurvature.searchSteps (fun t : ℚ => t) 5 (1 / 2) (pt 1) (pt 1) square 1,
      0 < a) ∧
    List.Chain' (fun alpha_prev alpha_next => alpha_next < alpha_prev)
      (BacktrackingCurvature.searchSteps (fun t : ℚ => t) 5 (1 / 2) (pt 1) (pt 1) square 1)) :=
  ⟨by norm_num,
    BacktrackingCurvature.trial_steps_safeguarded (fun t : ℚ => t) 5 (1 / 2) (pt 1) (pt 1)
      square 1 (by norm_num)⟩

section Dot
variable {K : Type} [LinearOrderedField K] {n : Nat}

theorem dot_neg_left (a b : Vec K n) : dot (-a) b = -dot a b := by
  simp [dot, Finset.sum_neg_distrib]

theorem dot_add_left (a b c : Vec K n) : dot (a + b) c = dot a c + dot b c := by
  simp [dot, add_mul, Finset.sum_add_distrib]

theorem dot_smul_left (t : K) (a b : Vec K n) : dot (t • a) b = t * dot a b := by
  simp [dot, Finset.mul_sum, mul_assoc]

theorem dot_self_pos (a : Vec K n) (h : a ≠ 0) : 0 < dot a a := by
  obtain ⟨i, hi⟩ : ∃ i, a i ≠ 0 := by
    by_contra hc
    push_neg at hc
    exact h (funext hc)
  have h1 : 0 < a i * a i := mul_self_pos.mpr hi
  have h2 : a i * a i ≤ dot a a :=
    Finset.single_le_sum (f := fun j => a j * a j) (fun j _ => mul_self_nonneg (a j))
      (Finset.mem_univ i)
  exact lt_of_lt_of_le h1 h2

end Dot

end optlib

namespace optimize
open optlib optlib.Examples

/-- C8, counterexample: conjugate gradient on `f(x) = -10x^3 + (33/2)x^2 - 2x` from `x = 1`
with the backtracking of `Backtracking::search` from the step `1` (decrease constant `1/2`,
twenty trials) as line search. The first step
`1` is accepted and leads to `x = 0`, where the gradient is `-2`; the direction formed there
in the second iteration is `p = -2`, and `p . grad = 4` is not negative. -/
theorem ConjugateGradient.second_direction_not_descent :
    (ConjugateGradient.iterates armijo cubicObjective (pt 1) 1).x 0 = 0 ∧
    (cubicObjective.gradient (pt 0)).2 0 = -2 ∧
    (ConjugateGradient.minimize armijo 2 0 cubicObjective (pt 1)).grad 0
      = -2 ∧
    (ConjugateGradient.minimize armijo 2 0 cubicObjective (pt 1)).p 0
      = -2 ∧
    ¬ (dot (ConjugateGradient.minimize armijo 2 0 cubicObjective (pt 1)).p
        (ConjugateGradient.minimize armijo 2 0 cubicObjective (pt 1)).grad
        < 0) := by
  norm_num [ConjugateGradient.iterates, ConjugateGradient.minimize,
    ConjugateGradient.minimizeLoop, ConjugateGradient.advance, ConjugateGradient.direction,
    ConjugateGradient.init, armijo, Backtracking.search, Backtracking.searchLoop,
    Backtracking.sufficientDecrease, cubicObjective, pt, dot, lpNormInf]

/-- C8, amended: in an iteration of `ConjugateGradient::minimize` whose gradient is nonzero, the
direction formed on the first iteration (`p = -grad`) satisfies `p . grad < 0`; the direction
formed on a later iteration (`p = -grad + beta*p_prev`, `beta = grad.grad / grad_old.grad_old`)
satisfies `p . grad < 0` exactly when `beta * (p_prev . grad) < grad . grad`. -/
theorem ConjugateGradient.direction_descent_iff {K : Type} [LinearOrderedField K] {n : Nat}
    (linesearch : LineSearch K n) (problem : Problem K n) (iter : Int) (grad : Vec K n)
    (st : ConjugateGradient.State K n) (hg : grad ≠ 0) :
    (iter = 0 → dot (ConjugateGradient.advance linesearch problem iter grad st).p grad < 0) ∧
    (iter ≠ 0 →
      (dot (ConjugateGradient.advance linesearch problem iter grad st).p grad < 0 ↔
        dot grad grad / dot st.grad_old st.grad_old * dot st.p grad < dot grad grad)) := by
  have hpos := dot_self_pos grad hg
  constructor
  · intro h0
    simp only [ConjugateGradient.advance, ConjugateGradient.direction, h0, if_true, dot_neg_left]
    linarith
  · intro h0
    simp only [ConjugateGradient.advance, ConjugateGradient.direction, h0, if_false,
      dot_add_left, dot_neg_left, dot_smul_left]
    constructor <;> intro h <;> linarith

/-- An instance of C8 (amended): the second iteration of the run on `cubicObjective`, where the
gradient is `-2`, the previous gradient `1` and the previous direction `-1`. -/
theorem ConjugateGradient.direction_descent_iff_witness :
    (pt (-2) ≠ (0 : Vec ℚ 1)) ∧
    ((((1 : Int) = 0) →
      dot (ConjugateGradient.advance armijo cubicObjective 1 (pt (-2))
        ⟨pt 0, pt 1, pt 1, pt (-1), 1⟩).p (pt (-2)) < 0) ∧
    (((1 : Int) ≠ 0) →
      (dot (ConjugateGradient.advance armijo cubicObjective 1 (pt (-2))
        ⟨pt 0, pt 1, pt 1, pt (-1), 1⟩).p (pt (-2)) < 0 ↔
        dot (pt (-2)) (pt (-2)) / dot (pt 1) (pt 1) * dot (pt (-1)) (pt (-2))
          < dot (pt (-2)) (pt (-2))))) :=
  have hne : pt (-2) ≠ (0 : Vec ℚ 1) := fun h => by
    have := congrFun h 0
    norm_num [pt] at this
  ⟨hne, ConjugateGradient.direction_descent_iff armijo cubicObjective 1
    (pt (-2)) ⟨pt 0, pt 1, pt 1, pt (-1), 1⟩ hne⟩

namespace ConjugateGradient
variable {K : Type} [LinearOrderedField K] {n : Nat}

end ConjugateGradient

end optimize

namespace optlib
open Examples

namespace LBFGS
variable {K : Type} [LinearOrderedField K] {n : Nat}

theorem chooseDirection_global_iter (M : Nat) (eps : K) (st : State K n) :
    (chooseDirection M eps st).global_iter = st.global_iter + 1 := by
  unfold chooseDirection
  split_ifs <;> rfl

theorem chooseDirection_budget (M : Nat) (eps : K) (st : State K n) :
    (chooseDirection M eps st).maxIter - (chooseDirection M eps st).k = st.maxIter - st.k := by
  unfold chooseDirection
  split_ifs
  · simp
  · rfl

theorem chooseDirection_k (M : Nat) (eps : K) (st : State K n) :
    (chooseDirection M eps st).k = if nonDescent M eps st then 0 else st.k := by
  unfold chooseDirection
  split_ifs <;> rfl

theorem takeStep_counters (M : Nat) (linesearch : LineSearch K n) (eps : K)
    (problem : Problem K n) (st : State K n) :
    (takeStep M linesearch eps problem st).2.global_iter = st.global_iter ∧
    (takeStep M linesearch eps problem st).2.maxIter = st.maxIter ∧
    (takeStep M linesearch eps problem st).2.k = st.k := by
  unfold takeStep
  simp only
  split_ifs <;> exact ⟨rfl, rfl, rfl⟩

theorem body_global_iter (M : Nat) (linesearch : LineSearch K n) (eps : K)
    (problem : Problem K n) (st : State K n) :
    (body M linesearch eps problem st).2.global_iter = st.global_iter + 1 := by
  unfold body
  rw [(takeStep_counters M linesearch eps problem _).1, chooseDirection_global_iter]

theorem body_budget (M : Nat) (linesearch : LineSearch K n) (eps : K)
    (problem : Problem K n) (st : State K n) :
    (body M linesearch eps problem st).2.maxIter - (body M linesearch eps problem st).2.k
      = st.maxIter - st.k := by
  unfold body
  rw [(takeStep_counters M linesearch eps problem _).2.1,
    (takeStep_counters M linesearch eps problem _).2.2, chooseDirection_budget]

/-- Enough fuel: the loop started in `st` returns once `fuel` reaches `maxIter - k`, after at
most that many runs of the body, each of which adds one to `global_iter`. -/
theorem loop_terminates (M : Nat) (linesearch : LineSearch K n) (eps : K)
    (problem : Problem K n) :
    ∀ (fuel : Nat) (st : State K n), (st.maxIter - st.k).toNat ≤ fuel →
      ∃ (final : State K n) (bodies : Nat),
        loop M linesearch eps problem fuel st = some (final, bodies) ∧
        final.global_iter = st.global_iter + bodies ∧
        bodies ≤ (st.maxIter - st.k).toNat := by
  intro fuel
  induction fuel with
  | zero =>
    intro st h
    have hk : ¬ st.k < st.maxIter := by omega
    exact ⟨st, 0, by simp [loop, hk], by simp, Nat.zero_le _⟩
  | succ fuel ih =>
    intro st h
    by_cases hk : st.k < st.maxIter
    · by_cases hb : (body M linesearch eps problem st).1 = true
      · refine ⟨(body M linesearch eps problem st).2, 1, by simp [loop, hk, hb], ?_, by omega⟩
        rw [body_global_iter]; simp
      · have hbud := body_budget M linesearch eps problem st
        obtain ⟨final, bodies, h1, h2, h3⟩ := ih
          { (body M linesearch eps problem st).2 with
            k := (body M linesearch eps problem st).2.k + 1 } (by simp only; omega)
        refine ⟨final, bodies + 1, by simp [loop, hk, hb, h1], ?_, ?_⟩
        · rw [h2]; simp only [body_global_iter]; push_cast; ring
        · simp only at h3; omega
    · exact ⟨st, 0, by simp [loop, hk], by simp, Nat.zero_le _⟩

/-- More fuel does not change what the loop returns. -/
theorem loop_fuel_succ (M : Nat) (linesearch : LineSearch K n) (eps : K)
    (problem : Problem K n) :
    ∀ (fuel : Nat) (st : State K n) (r : State K n × Nat),
      loop M linesearch eps problem fuel st = some r →
      loop M linesearch eps problem (fuel + 1) st = some r := by
  intro fuel
  induction fuel with
  | zero =>
    intro st r h
    by_cases hk : st.k < st.maxIter
    · simp [loop, hk] at h
    · simpa [loop, hk] using h
  | succ fuel ih =>
    intro st r h
    by_cases hk : st.k < st.maxIter
    · by_cases hb : (body M linesearch eps problem st).1 = true
      · simpa [loop, hk, hb] using h
      · rw [loop] at h ⊢
        simp only [hk, hb, if_true] at h ⊢
        cases hrec : loop M linesearch eps problem fuel
            { (body M linesearch eps problem st).2 with
              k := (body M linesearch eps problem st).2.k + 1 } with
        | none => rw [hrec] at h; simp at h
        | some r1 =>
          rw [hrec] at h
          rw [ih _ r1 hrec]
          exact h
    · simpa [loop, hk] using h

theorem loop_fuel_le (M : Nat) (linesearch : LineSearch K n) (eps : K)
    (problem : Problem K n) (fuel fuel1 : Nat) (hle : fuel ≤ fuel1) (st : State K n)
    (r : State K n × Nat) (h : loop M linesearch eps problem fuel st = some r) :
    loop M linesearch eps problem fuel1 st = some r := by
  induction hle with
  | refl => exact h
  | step _ ih => exact loop_fuel_succ M linesearch eps problem _ st r ih

theorem atLoopTest_budget (M : Nat) (linesearch : LineSearch K n) (eps : K)
    (problem : Problem K n) (st0 st : State K n) (h : List (Vec K n × Vec K n))
    (hr : AtLoopTest M linesearch eps problem st0 st h) :
    st.global_iter + st.maxIter - st.k = st0.global_iter + st0.maxIter - st0.k := by
  induction hr with
  | start => rfl
  | next st h _ hk hb ih =>
    have h1 := body_global_iter M linesearch eps problem st
    have h2 := body_budget M linesearch eps problem st
    simp only
    omega

end LBFGS

/-- With any fuel of at least `max_iters` the loop of `LBFGS::minimize` returns, always with
the same result; `global_iter` at return is the number of bodies run, at most `max_iters`. -/
theorem LBFGS.max_iters_budget_aux {K : Type} [LinearOrderedField K] {n : Nat}
    (M : Nat) (linesearch : LineSearch K n) (max_iters : Int) (eps init_hess : K)
    (problem : Problem K n) (x : Vec K n) :
    ∃ (final : LBFGS.State K n) (bodies : Nat),
      (∀ fuel : Nat, max_iters.toNat ≤ fuel →
        LBFGS.loop M linesearch eps problem fuel (LBFGS.init max_iters init_hess problem x)
          = some (final, bodies) ∧
        LBFGS.minimize M linesearch max_iters eps init_hess problem x fuel
          = some ((bodies : Int), final.x)) ∧
      final.global_iter = bodies ∧
      bodies ≤ max_iters.toNat ∧
      (bodies : Int) ≤ max max_iters 0 ∧
      (max_iters ≤ 0 → bodies = 0) := by
  obtain ⟨final, bodies, h1, h2, h3⟩ := LBFGS.loop_terminates M linesearch eps problem
    max_iters.toNat (LBFGS.init max_iters init_hess problem x) (by simp [LBFGS.init])
  have h2a : final.global_iter = bodies := by simpa [LBFGS.init] using h2
  have h3a : bodies ≤ max_iters.toNat := by simpa [LBFGS.init] using h3
  refine ⟨final, bodies, ?_, h2a, h3a, by omega, by intro h; omega⟩
  intro fuel hf
  have hl := LBFGS.loop_fuel_le M linesearch eps problem _ fuel hf _ _ h1
  refine ⟨hl, ?_⟩
  simp [LBFGS.minimize, hl, h2a]

/-- C5: `max_iters` caps the outer iterations of `LBFGS::minimize`. With any fuel of at least
`max_iters` the loop returns, always with the same result; the returned `global_iter` is the
number of times the loop body ran, which is at most `max_iters` and is `0` when
`max_iters <= 0`; and at every loop test, whatever restarts rewrote `k` and `maxIter`,
`global_iter + maxIter - k = max_iters`. -/
theorem LBFGS.max_iters_caps_outer_iterations {K : Type} [LinearOrderedField K] {n : Nat}
    (M : Nat) (linesearch : LineSearch K n) (max_iters : Int) (eps init_hess : K)
    (problem : Problem K n) (x : Vec K n) :
    (∃ (final : LBFGS.State K n) (bodies : Nat),
      (∀ fuel : Nat, max_iters.toNat ≤ fuel →
        LBFGS.loop M linesearch eps problem fuel (LBFGS.init max_iters init_hess problem x)
          = some (final, bodies) ∧
        LBFGS.minimize M linesearch max_iters eps init_hess problem x fuel
          = some ((bodies : Int), final.x)) ∧
      final.global_iter = bodies ∧
      bodies ≤ max_iters.toNat ∧
      (bodies : Int) ≤ max max_iters 0 ∧
      (max_iters ≤ 0 → bodies = 0)) ∧
    (∀ (st : LBFGS.State K n) (h : List (Vec K n × Vec K n)),
      LBFGS.AtLoopTest M linesearch eps problem (LBFGS.init max_iters init_hess problem x) st h →
      st.global_iter + st.maxIter - st.k = max_iters) := by
  constructor
  · exact LBFGS.max_iters_budget_aux M linesearch max_iters eps init_hess problem x
  · intro st h hr
    have := LBFGS.atLoopTest_budget M linesearch eps problem _ st h hr
    simpa [LBFGS.init] using this

namespace LBFGS
variable {K : Type} [LinearOrderedField K] {n : Nat}

theorem body_x_of_curvature (M : Nat) (linesearch : LineSearch K n) (eps : K)
    (problem : Problem K n) (st : State K n)
    (hy : dot (yTemp M linesearch eps problem st) (yTemp M linesearch eps problem st) ≤ 0) :
    (body M linesearch eps problem st).1 = true ∧
    (body M linesearch eps problem st).2.x = newPoint M linesearch eps problem st ∧
    (body M linesearch eps problem st).2.gamma_k = st.gamma_k := by
  have hg : (chooseDirection M eps st).gamma_k = st.gamma_k := by
    unfold chooseDirection; split_ifs <;> rfl
  have hgo : (chooseDirection M eps st).grad_old = st.grad := by
    unfold chooseDirection; split_ifs <;> rfl
  unfold yTemp newPoint at hy
  simp only at hy
  unfold body takeStep newPoint
  simp only [hgo]
  split_ifs
  · exact ⟨rfl, rfl, hg⟩
  · exact ⟨rfl, rfl, hg⟩
  · exact ⟨rfl, rfl, hg⟩

/-- A state at a loop test is reached from the entry state by running the loop: what the loop
returns from it is what the loop returns from the entry state, with the bodies already run
added to the count. -/
theorem loop_of_atLoopTest (M : Nat) (linesearch : LineSearch K n) (eps : K)
    (problem : Problem K n) (st0 st : State K n) (h : List (Vec K n × Vec K n))
    (hr : AtLoopTest M linesearch eps problem st0 st h) :
    ∀ (fuel : Nat) (r : State K n × Nat), loop M linesearch eps problem fuel st = some r →
      ∃ (fuel0 : Nat) (bodies : Nat),
        loop M linesearch eps problem fuel0 st0 = some (r.1, bodies) ∧
        (bodies : Int) = r.2 + (st.global_iter - st0.global_iter) := by
  induction hr with
  | start =>
    intro fuel r hl
    exact ⟨fuel, r.2, hl, by simp⟩
  | next st h _ hk hb ih =>
    intro fuel r hl
    have hstep : loop M linesearch eps problem (fuel + 1) st = some (r.1, r.2 + 1) := by
      rw [loop]
      simp only [hk, hb, if_true, hl]
      rfl
    obtain ⟨fuel0, bodies, h1, h2⟩ := ih (fuel + 1) (r.1, r.2 + 1) hstep
    refine ⟨fuel0, bodies, h1, ?_⟩
    have hg := body_global_iter M linesearch eps problem st
    simp only at h2 ⊢
    rw [h2, hg]
    push_cast
    ring

end LBFGS

/-- C7: curvature breakdown in `LBFGS::minimize`. If at a loop test that succeeds the pair of
the coming iteration has `y_temp . y_temp <= 0`, the solver leaves the loop in that iteration:
it returns `global_iter + 1`, the number of loop bodies run so far, leaves `x` at the point
`x - rate*q` produced by the line-search update, and `gamma_k` keeps its value (the quotient
`(s_temp . y_temp)/(y_temp . y_temp)` is not assigned). -/
theorem LBFGS.curvature_breakdown_terminates {K : Type} [LinearOrderedField K] {n : Nat}
    (M : Nat) (linesearch : LineSearch K n) (max_iters : Int) (eps init_hess : K)
    (problem : Problem K n) (x : Vec K n) (st : LBFGS.State K n)
    (h : List (Vec K n × Vec K n))
    (hr : LBFGS.AtLoopTest M linesearch eps problem
      (LBFGS.init max_iters init_hess problem x) st h)
    (hk : st.k < st.maxIter)
    (hy : dot (LBFGS.yTemp M linesearch eps problem st)
      (LBFGS.yTemp M linesearch eps problem st) ≤ 0) :
    ∃ (final : LBFGS.State K n) (bodies : Nat),
      (∀ fuel : Nat, max_iters.toNat ≤ fuel →
        LBFGS.loop M linesearch eps problem fuel (LBFGS.init max_iters init_hess problem x)
          = some (final, bodies) ∧
        LBFGS.minimize M linesearch max_iters eps init_hess problem x fuel
          = some (st.global_iter + 1, LBFGS.newPoint M linesearch eps problem st)) ∧
      final = (LBFGS.body M linesearch eps problem st).2 ∧
      (bodies : Int) = st.global_iter + 1 ∧
      final.global_iter = st.global_iter + 1 ∧
      final.x = LBFGS.newPoint M linesearch eps problem st ∧
      final.gamma_k = st.gamma_k := by
  obtain ⟨hb, hx, hg⟩ := LBFGS.body_x_of_curvature M linesearch eps problem st hy
  have hl : LBFGS.loop M linesearch eps problem 1 st
      = some ((LBFGS.body M linesearch eps problem st).2, 1) := by
    simp [LBFGS.loop, hk, hb]
  obtain ⟨fuel0, bodies, h1, h2⟩ := LBFGS.loop_of_atLoopTest M linesearch eps problem _ st h hr
    1 _ hl
  have hgi := LBFGS.body_global_iter M linesearch eps problem st
  have h2a : (bodies : Int) = st.global_iter + 1 := by
    simp only [LBFGS.init] at h2
    rw [h2]; push_cast; ring
  obtain ⟨final, bodies1, hall, _, _, _, _⟩ :=
    (LBFGS.max_iters_budget_aux M linesearch max_iters eps init_hess problem x)
  have hsame : (final, bodies1) = ((LBFGS.body M linesearch eps problem st).2, bodies) := by
    have a1 := LBFGS.loop_fuel_le M linesearch eps problem _ (max fuel0 max_iters.toNat)
      (le_max_left _ _) _ _ h1
    have a2 := (hall (max fuel0 max_iters.toNat) (le_max_right _ _)).1
    rw [a1] at a2
    exact (Option.some.inj a2).symm
  obtain ⟨hf, hbod⟩ := Prod.mk.inj hsame
  subst hf hbod
  refine ⟨_, bodies1, ?_, rfl, h2a, hgi, hx, hg⟩
  intro fuel hf
  refine ⟨(hall fuel hf).1, ?_⟩
  rw [(hall fuel hf).2, h2a, hx]

namespace LBFGS
variable {K : Type} [LinearOrderedField K] {n : Nat}

theorem firstLoop_congr (s y s1 y1 : Nat → Vec K n) (N : Nat)
    (hs : ∀ j < N, s j = s1 j ∧ y j = y1 j) :
    ∀ (m : Nat) (w w1 : Work K n), m ≤ N → w.q = w1.q →
      (∀ j, m ≤ j → j < N → w.rho j = w1.rho j ∧ w.alpha j = w1.alpha j) →
      (firstLoop s y m w).q = (firstLoop s1 y1 m w1).q ∧
      ∀ j < N, (firstLoop s y m w).rho j = (firstLoop s1 y1 m w1).rho j ∧
        (firstLoop s y m w).alpha j = (firstLoop s1 y1 m w1).alpha j := by
  intro m
  induction m with
  | zero =>
    intro w w1 _ hq hra
    exact ⟨hq, fun j hj => hra j (Nat.zero_le _) hj⟩
  | succ m ih =>
    intro w w1 hm hq hra
    have hsm := hs m (by omega)
    simp only [firstLoop]
    apply ih _ _ (by omega)
    · simp [hq, hsm.1, hsm.2]
    · intro j hj hjN
      by_cases hjm : j = m
      · subst hjm
        simp [hq, hsm.1, hsm.2]
      · have := hra j (by omega) hjN
        simp [Function.update_noteq hjm, this.1, this.2]

theorem secondLoop_congr (s y s1 y1 : Nat → Vec K n) (rho alpha rho1 alpha1 : Nat → K) (N : Nat)
    (hs : ∀ j < N, s j = s1 j ∧ y j = y1 j)
    (hra : ∀ j < N, rho j = rho1 j ∧ alpha j = alpha1 j) :
    ∀ (m : Nat) (q : Vec K n), m ≤ N →
      secondLoop s y rho alpha m q = secondLoop s1 y1 rho1 alpha1 m q := by
  intro m
  induction m with
  | zero => intro q _; rfl
  | succ m ih =>
    intro q hm
    have hsm := hs m (by omega)
    have hrm := hra m (by omega)
    simp only [secondLoop, ih q (by omega), hsm.1, hsm.2, hrm.1, hrm.2]

/-- The recursion reads the history through the columns below `iter = min(M, k)` only. -/
theorem twoLoop_eq_directionOf (M : Nat) (st : State K n) (pairs : List (Vec K n × Vec K n))
    (hlen : pairs.length = (min (M : Int) st.k).toNat)
    (hcols : ∀ j < pairs.length, pairs[j]? = some (st.s j, st.y j)) :
    (twoLoop M st).q = directionOf pairs st.gamma_k st.grad := by
  have hs : ∀ j < pairs.length,
      st.s j = (pairs.getD j (0, 0)).1 ∧ st.y j = (pairs.getD j (0, 0)).2 := by
    intro j hj
    simp [List.getD, hcols j hj]
  unfold twoLoop directionOf
  simp only [← hlen]
  obtain ⟨hq, hra⟩ := firstLoop_congr st.s st.y _ _ pairs.length hs pairs.length
    { rho := st.rho, alpha := st.alpha, q := st.grad }
    { rho := fun _ => 0, alpha := fun _ => 0, q := st.grad } (le_refl _) rfl
    (by intro j h1 h2; omega)
  rw [hq]
  exact secondLoop_congr _ _ _ _ _ _ _ _ pairs.length hs hra pairs.length _ (le_refl _)

omit [LinearOrderedField K] in
theorem updateHistory_window (M : Nat) (k : Int) (s y : Nat → Vec K n)
    (h : List (Vec K n × Vec K n)) (sv yv : Vec K n) (hk : k = h.length)
    (hw : Window M s y h) :
    Window M (updateHistory M k s sv) (updateHistory M k y yv) (h ++ [(sv, yv)]) := by
  intro j hj
  simp only [List.length_append, List.length_singleton] at hj ⊢
  by_cases hlt : h.length < M
  · have hmin : min (h.length + 1) M = h.length + 1 := by omega
    have hkM : k < (M : Int) := by omega
    have hto : k.toNat = h.length := by omega
    rw [hmin] at hj ⊢
    simp only [updateHistory, hkM, if_true, hto]
    have hidx : h.length + 1 - (h.length + 1) + j = j := by omega
    rw [hidx]
    by_cases hjl : j = h.length
    · subst hjl
      simp
    · have hjlt : j < h.length := by omega
      have := hw j (by omega)
      have hmin2 : min h.length M = h.length := by omega
      rw [hmin2] at this
      have hidx2 : h.length - h.length + j = j := by omega
      rw [hidx2] at this
      rw [List.getElem?_append_left hjlt, this]
      simp [Function.update_noteq hjl]
  · have hmin : min (h.length + 1) M = M := by omega
    have hkM : ¬ k < (M : Int) := by omega
    rw [hmin] at hj ⊢
    simp only [updateHistory, hkM, if_false]
    by_cases hj1 : j + 1 < M
    · have := hw (j + 1) (by omega)
      have hmin2 : min h.length M = M := by omega
      rw [hmin2] at this
      have hidx : h.length + 1 - M + j = h.length - M + (j + 1) := by omega
      rw [hidx, List.getElem?_append_left (by omega), this]
      simp [hj1]
    · have hjM : j + 1 = M := by omega
      have hidx : h.length + 1 - M + j = h.length := by omega
      rw [hidx]
      simp [hj1, hjM]

theorem chooseDirection_frame (M : Nat) (eps : K) (st : State K n) :
    (chooseDirection M eps st).s = st.s ∧ (chooseDirection M eps st).y = st.y ∧
    (chooseDirection M eps st).x_old = st.x ∧ (chooseDirection M eps st).grad_old = st.grad ∧
    (chooseDirection M eps st).gamma_k = st.gamma_k ∧
    (chooseDirection M eps st).grad = st.grad := by
  unfold chooseDirection
  split_ifs <;> exact ⟨rfl, rfl, rfl, rfl, rfl, rfl⟩

/-- In an iteration that does not leave the loop, the history matrices after the body are the
old ones updated with the pair of that iteration, at the value `k` has after the descent
check. -/
theorem body_history (M : Nat) (linesearch : LineSearch K n) (eps : K)
    (problem : Problem K n) (st : State K n)
    (hb : (body M linesearch eps problem st).1 = false) :
    (body M linesearch eps problem st).2.s
      = updateHistory M (if nonDescent M eps st then 0 else st.k) st.s
          (newPair st (body M linesearch eps problem st).2).1 ∧
    (body M linesearch eps problem st).2.y
      = updateHistory M (if nonDescent M eps st then 0 else st.k) st.y
          (newPair st (body M linesearch eps problem st).2).2 ∧
    (body M linesearch eps problem st).2.k = (if nonDescent M eps st then 0 else st.k) := by
  obtain ⟨f1, f2, f3, f4, _, _⟩ := chooseDirection_frame M eps st
  have fk := chooseDirection_k M eps st
  unfold body takeStep at hb ⊢
  unfold newPair
  simp only at hb ⊢
  split_ifs at hb ⊢ <;> simp_all

theorem atLoopTest_window (M : Nat) (linesearch : LineSearch K n) (eps : K)
    (problem : Problem K n) (st0 st : State K n) (h : List (Vec K n × Vec K n))
    (hk0 : st0.k = 0) (hr : AtLoopTest M linesearch eps problem st0 st h) :
    st.k = h.length ∧ Window M st.s st.y h := by
  induction hr with
  | start =>
    refine ⟨by simpa using hk0, ?_⟩
    intro j hj
    simp at hj
  | next st h _ hk hb ih =>
    obtain ⟨hs, hy, hkk⟩ := body_history M linesearch eps problem st hb
    simp only
    rw [hs, hy, hkk]
    by_cases hnd : nonDescent M eps st
    · simp only [hnd, if_true]
      refine ⟨by simp, ?_⟩
      have := updateHistory_window M 0 st.s st.y []
        (newPair st (body M linesearch eps problem st).2).1
        (newPair st (body M linesearch eps problem st).2).2 (by simp)
        (by intro j hj; simp at hj)
      simpa using this
    · simp only [hnd, if_false]
      refine ⟨by simp [ih.1], ?_⟩
      exact updateHistory_window M st.k st.s st.y h _ _ ih.1 ih.2

end LBFGS

/-- C6: the history of `LBFGS::minimize` is a FIFO window of at most `M` pairs. At a loop test
reached after `len` history updates since the start or since the last non-descent restart
(`h` lists their pairs, oldest first), `k = len`, the columns `0 .. min(len, M) - 1` of `s` and
`y` hold the last `min(len, M)` pairs of `h` in order, and the direction the next two-loop
recursion computes is the one computed from those pairs alone: the pairs of `h` before the last
`min(len, M)` do not enter it. In particular, once more than `M` updates have been made, the
direction is computed from `h` without its oldest pair. -/
theorem LBFGS.history_is_fifo_window {K : Type} [LinearOrderedField K] {n : Nat}
    (M : Nat) (linesearch : LineSearch K n) (max_iters : Int) (eps init_hess : K)
    (problem : Problem K n) (x : Vec K n) (st : LBFGS.State K n)
    (h : List (Vec K n × Vec K n))
    (hr : LBFGS.AtLoopTest M linesearch eps problem
      (LBFGS.init max_iters init_hess problem x) st h) :
    st.k = h.length ∧
    (∀ j : Nat, j < min h.length M →
      h[h.length - min h.length M + j]? = some (st.s j, st.y j)) ∧
    (∀ older recent : List (Vec K n × Vec K n), h = older ++ recent →
      recent.length = min h.length M →
      (LBFGS.twoLoop M st).q = LBFGS.directionOf recent st.gamma_k st.grad) ∧
    (M < h.length →
      (h.tail.drop (h.length - 1 - M)).length = M ∧
      (LBFGS.twoLoop M st).q
        = LBFGS.directionOf (h.tail.drop (h.length - 1 - M)) st.gamma_k st.grad) := by
  obtain ⟨hk, hw⟩ := LBFGS.atLoopTest_window M linesearch eps problem _ st h
    (by simp [LBFGS.init]) hr
  have hdir : ∀ older recent : List (Vec K n × Vec K n), h = older ++ recent →
      recent.length = min h.length M →
      (LBFGS.twoLoop M st).q = LBFGS.directionOf recent st.gamma_k st.grad := by
    intro older recent hsplit hlen
    apply LBFGS.twoLoop_eq_directionOf
    · rw [hlen, hk]
      omega
    · intro j hj
      have hlo : older.length = h.length - min h.length M := by
        have := congrArg List.length hsplit
        simp only [List.length_append] at this
        omega
      have := hw j (by omega)
      rw [← this, ← hlo, hsplit, List.getElem?_append_right (by omega)]
      congr 1
      omega
  refine ⟨hk, hw, hdir, ?_⟩
  intro hM
  have hlen : (h.tail.drop (h.length - 1 - M)).length = M := by
    simp only [List.length_drop, List.length_tail]
    omega
  refine ⟨hlen, ?_⟩
  apply hdir (h.take (h.length - M)) _ ?_ (by rw [hlen]; omega)
  cases h with
  | nil => simp at hM
  | cons p rest =>
    simp only [List.length_cons, List.tail_cons] at hM ⊢
    have e1 : rest.length + 1 - M = (rest.length - M) + 1 := by omega
    have e2 : rest.length + 1 - 1 - M = rest.length - M := by omega
    rw [e1, e2, List.take_succ_cons, List.cons_append, List.take_append_drop]

theorem Examples.lbfgsEntry_continues :
    lbfgsEntry.k < lbfgsEntry.maxIter ∧ (LBFGS.body 8 armijo 0 square lbfgsEntry).1 = false := by
  constructor
  · norm_num [lbfgsEntry, LBFGS.init]
  · norm_num [lbfgsEntry, LBFGS.init, LBFGS.body, LBFGS.takeStep, LBFGS.chooseDirection,
      LBFGS.nonDescent, LBFGS.twoLoop, LBFGS.firstLoop, LBFGS.secondLoop, armijo,
      Backtracking.search, Backtracking.searchLoop, Backtracking.sufficientDecrease,
      Backtracking.tau, square, pt, dot, squaredNorm, lpNormInf]

/-- An instance of C6: the second loop test of the run of L-BFGS on `f(x) = x^2` from `x = 1`,
reached after one history update. -/
theorem LBFGS.history_is_fifo_window_witness :
    LBFGS.AtLoopTest 8 armijo 0 square (LBFGS.init 2 1 square (pt 1)) lbfgsSecond
      lbfgsSecondHistory ∧
    (lbfgsSecond.k = lbfgsSecondHistory.length ∧
    (∀ j : Nat, j < min lbfgsSecondHistory.length 8 →
      lbfgsSecondHistory[lbfgsSecondHistory.length - min lbfgsSecondHistory.length 8 + j]?
        = some (lbfgsSecond.s j, lbfgsSecond.y j)) ∧
    (∀ older recent : List (Vec ℚ 1 × Vec ℚ 1), lbfgsSecondHistory = older ++ recent →
      recent.length = min lbfgsSecondHistory.length 8 →
      (LBFGS.twoLoop 8 lbfgsSecond).q
        = LBFGS.directionOf recent lbfgsSecond.gamma_k lbfgsSecond.grad) ∧
    (8 < lbfgsSecondHistory.length →
      (lbfgsSecondHistory.tail.drop (lbfgsSecondHistory.length - 1 - 8)).length = 8 ∧
      (LBFGS.twoLoop 8 lbfgsSecond).q
        = LBFGS.directionOf (lbfgsSecondHistory.tail.drop (lbfgsSecondHistory.length - 1 - 8))
            lbfgsSecond.gamma_k lbfgsSecond.grad)) :=
  have hr : LBFGS.AtLoopTest 8 armijo 0 square (LBFGS.init 2 1 square (pt 1)) lbfgsSecond
      lbfgsSecondHistory :=
    LBFGS.AtLoopTest.next lbfgsEntry [] LBFGS.AtLoopTest.start Examples.lbfgsEntry_continues.1
      Examples.lbfgsEntry_continues.2
  ⟨hr, LBFGS.history_is_fifo_window 8 armijo 2 0 1 square (pt 1) lbfgsSecond
    lbfgsSecondHistory hr⟩

/-- An instance of C7: L-BFGS on the linear objective `f(x) = x`, whose gradient is the same at
every point, so that `y_temp = 0` in the first iteration. -/
theorem LBFGS.curvature_breakdown_terminates_witness :
    LBFGS.AtLoopTest 8 armijo 0 linear (LBFGS.init 5 1 linear (pt 0))
      (LBFGS.init 5 1 linear (pt 0)) [] ∧
    (LBFGS.init 5 1 linear (pt 0)).k < (LBFGS.init 5 1 linear (pt 0)).maxIter ∧
    dot (LBFGS.yTemp 8 armijo 0 linear (LBFGS.init 5 1 linear (pt 0)))
      (LBFGS.yTemp 8 armijo 0 linear (LBFGS.init 5 1 linear (pt 0))) ≤ 0 ∧
    ∃ (final : LBFGS.State ℚ 1) (bodies : Nat),
      (∀ fuel : Nat, (5 : Int).toNat ≤ fuel →
        LBFGS.loop 8 armijo 0 linear fuel (LBFGS.init 5 1 linear (pt 0))
          = some (final, bodies) ∧
        LBFGS.minimize 8 armijo 5 0 1 linear (pt 0) fuel
          = some ((LBFGS.init 5 1 linear (pt 0)).global_iter + 1,
              LBFGS.newPoint 8 armijo 0 linear (LBFGS.init 5 1 linear (pt 0)))) ∧
      final = (LBFGS.body 8 armijo 0 linear (LBFGS.init 5 1 linear (pt 0))).2 ∧
      (bodies : Int) = (LBFGS.init 5 1 linear (pt 0)).global_iter + 1 ∧
      final.global_iter = (LBFGS.init 5 1 linear (pt 0)).global_iter + 1 ∧
      final.x = LBFGS.newPoint 8 armijo 0 linear (LBFGS.init 5 1 linear (pt 0)) ∧
      final.gamma_k = (LBFGS.init 5 1 linear (pt 0)).gamma_k :=
  have hk : (LBFGS.init 5 1 linear (pt 0)).k < (LBFGS.init 5 1 linear (pt 0)).maxIter := by
    norm_num [LBFGS.init]
  have hy : dot (LBFGS.yTemp 8 armijo 0 linear (LBFGS.init 5 1 linear (pt 0)))
      (LBFGS.yTemp 8 armijo 0 linear (LBFGS.init 5 1 linear (pt 0))) ≤ 0 := by
    norm_num [LBFGS.yTemp, LBFGS.init, linear, dot]
  ⟨LBFGS.AtLoopTest.start, hk, hy,
    LBFGS.curvature_breakdown_terminates 8 armijo 5 0 1 linear (pt 0) _ []
      LBFGS.AtLoopTest.start hk hy⟩

namespace Backtracking
variable {K : Type} [LinearOrderedField K] {n : Nat}

theorem tau_le_one : (tau : K) ≤ 1 := by
  unfold tau; norm_num

omit [LinearOrderedField K] in
theorem countP_value_map (l : List K) (f : K → Vec K n) :
    (l.map (fun a => Call.value (f a))).countP Call.isValue = l.length ∧
    (l.map (fun a => Call.value (f a))).countP (Call.isGradient (K := K) (n := n)) = 0 := by
  induction l with
  | nil => simp
  | cons a l ih => simp [List.countP_cons, Call.isValue, Call.isGradient, ih.1, ih.2]

/-- The run of `Backtracking::search` when the first accepted trial step has index `k`. -/
theorem search_of_first_accepted (max_iters : Int) (decrease : K) (x p : Vec K n)
    (problem : Problem K n) (alpha0 : K) (k : Nat) (hk : (k : Int) < max_iters)
    (hacc : sufficientDecrease decrease x p problem (problem.gradient x).1
      (dot (problem.gradient x).2 p) (alpha0 * tau ^ k))
    (hrej : ∀ i < k, ¬ sufficientDecrease decrease x p problem (problem.gradient x).1
      (dot (problem.gradient x).2 p) (alpha0 * tau ^ i)) :
    search max_iters decrease x p problem alpha0 = alpha0 * tau ^ k ∧
    (searchLoop decrease x p problem (problem.gradient x).1 (dot (problem.gradient x).2 p)
      max_iters.toNat 0 alpha0).trials
        = (List.range (k + 1)).map (fun i => alpha0 * tau ^ i) := by
  obtain ⟨j, hj, h1, h2, h3, h4, h5⟩ := searchLoop_spec decrease x p problem
    (problem.gradient x).1 (dot (problem.gradient x).2 p) max_iters.toNat 0 alpha0
  have hjk : j = k := by
    rcases Nat.lt_trichotomy j k with hlt | heq | hgt
    · exact absurd (h5 (by omega)) (hrej j hlt)
    · exact heq
    · exact absurd hacc (h4 k hgt)
  subst hjk
  have hjr : j < max_iters.toNat := by omega
  refine ⟨?_, ?_⟩
  · unfold search
    simp only [h1, h2]
    have hne : ¬ ((0 : Int) + j = max_iters) := by omega
    simp only [hne, if_false]
  · rw [h3]; simp [hjr]

/-- The run of `Backtracking::search` when every trial step is rejected. -/
theorem search_trials_of_all_rejected (max_iters : Int) (decrease : K) (x p : Vec K n)
    (problem : Problem K n) (alpha0 : K)
    (hrej : ∀ i : Nat, (i : Int) < max_iters →
      ¬ sufficientDecrease decrease x p problem (problem.gradient x).1
        (dot (problem.gradient x).2 p) (alpha0 * tau ^ i)) :
    (searchLoop decrease x p problem (problem.gradient x).1 (dot (problem.gradient x).2 p)
      max_iters.toNat 0 alpha0).trials
        = (List.range max_iters.toNat).map (fun i => alpha0 * tau ^ i) := by
  obtain ⟨j, hj, h1, h2, h3, h4, h5⟩ := searchLoop_spec decrease x p problem
    (problem.gradient x).1 (dot (problem.gradient x).2 p) max_iters.toNat 0 alpha0
  have hjr : ¬ j < max_iters.toNat := by
    intro hlt
    exact hrej j (by omega) (h5 hlt)
  rw [h3]; simp [hjr]

end Backtracking

/-- C11: when `Backtracking::search` succeeds, that is when some trial step `alpha0 * 0.7^i` with
`0 <= i < max_iters` passes the Armijo test, it returns `alpha0 * 0.7^k` for the least such
index `k`; its calls on the objective are one `problem.gradient` at `x` followed by `k + 1`
calls of `problem.value`, at the steps `alpha0 * 0.7^0, ..., alpha0 * 0.7^k`; and for
`alpha0 > 0` the result satisfies `0 < alpha <= alpha0`. When no trial step passes, the calls
are one `problem.gradient` at `x` and one `problem.value` for each of the `max_iters` trial
steps. -/
theorem Backtracking.search_returns_first_accepted_step {K : Type} [LinearOrderedField K]
    {n : Nat} (max_iters : Int) (decrease : K) (x p : Vec K n) (problem : Problem K n)
    (alpha0 : K) :
    (∀ k : Nat, (k : Int) < max_iters →
      Backtracking.sufficientDecrease decrease x p problem (problem.gradient x).1
        (dot (problem.gradient x).2 p) (alpha0 * Backtracking.tau ^ k) →
      (∀ i < k, ¬ Backtracking.sufficientDecrease decrease x p problem (problem.gradient x).1
        (dot (problem.gradient x).2 p) (alpha0 * Backtracking.tau ^ i)) →
      Backtracking.search max_iters decrease x p problem alpha0 = alpha0 * Backtracking.tau ^ k ∧
      Backtracking.searchCalls max_iters decrease x p problem alpha0
        = Backtracking.Call.gradient x ::
          (List.range (k + 1)).map
            (fun i => Backtracking.Call.value (x + (alpha0 * Backtracking.tau ^ i) • p)) ∧
      (Backtracking.searchCalls max_iters decrease x p problem alpha0).countP
        Backtracking.Call.isGradient = 1 ∧
      (Backtracking.searchCalls max_iters decrease x p problem alpha0).countP
        Backtracking.Call.isValue = k + 1 ∧
      (0 < alpha0 →
        0 < Backtracking.search max_iters decrease x p problem alpha0 ∧
        Backtracking.search max_iters decrease x p problem alpha0 ≤ alpha0)) ∧
    ((∀ i : Nat, (i : Int) < max_iters →
      ¬ Backtracking.sufficientDecrease decrease x p problem (problem.gradient x).1
        (dot (problem.gradient x).2 p) (alpha0 * Backtracking.tau ^ i)) →
      Backtracking.searchCalls max_iters decrease x p problem alpha0
        = Backtracking.Call.gradient x ::
          (List.range max_iters.toNat).map
            (fun i => Backtracking.Call.value (x + (alpha0 * Backtracking.tau ^ i) • p)) ∧
      (Backtracking.searchCalls max_iters decrease x p problem alpha0).countP
        Backtracking.Call.isGradient = 1 ∧
      (Backtracking.searchCalls max_iters decrease x p problem alpha0).countP
        Backtracking.Call.isValue = max_iters.toNat) := by
  constructor
  · intro k hk hacc hrej
    obtain ⟨hs, ht⟩ := Backtracking.search_of_first_accepted max_iters decrease x p problem
      alpha0 k hk hacc hrej
    have hc := Backtracking.countP_value_map
      ((List.range (k + 1)).map (fun i => alpha0 * Backtracking.tau ^ i)) (fun a => x + a • p)
    refine ⟨hs, ?_, ?_, ?_, ?_⟩
    · simp only [Backtracking.searchCalls, ht, List.map_map]
      rfl
    · simp only [Backtracking.searchCalls, ht, List.countP_cons, hc.2]
      simp [Backtracking.Call.isGradient]
    · simp only [Backtracking.searchCalls, ht, List.countP_cons, hc.1]
      simp [Backtracking.Call.isValue]
    · intro h0
      rw [hs]
      refine ⟨mul_pos h0 (pow_pos Backtracking.tau_pos k), ?_⟩
      have h1 : (Backtracking.tau : K) ^ k ≤ 1 :=
        pow_le_one₀ (le_of_lt Backtracking.tau_pos) Backtracking.tau_le_one
      nlinarith
  · intro hrej
    have ht := Backtracking.search_trials_of_all_rejected max_iters decrease x p problem
      alpha0 hrej
    have hc := Backtracking.countP_value_map
      ((List.range max_iters.toNat).map (fun i => alpha0 * Backtracking.tau ^ i))
      (fun a => x + a • p)
    refine ⟨?_, ?_, ?_⟩
    · simp only [Backtracking.searchCalls, ht, List.map_map]
      rfl
    · simp only [Backtracking.searchCalls, ht, List.countP_cons, hc.2]
      simp [Backtracking.Call.isGradient]
    · simp only [Backtracking.searchCalls, ht, List.countP_cons, hc.1]
      simp [Backtracking.Call.isValue]

/-- An instance of C11: on `f(x) = x^2` from `x = 1` along `p = -2` with decrease constant `1/2`
and `alpha0 = 1`, the steps `1` and `7/10` are rejected and the step `49/100` is accepted. -/
theorem Backtracking.search_returns_first_accepted_step_witness :
    Backtracking.search 20 (1 / 2) (pt 1) (pt (-2)) square 1 = 1 * Backtracking.tau ^ 2 ∧
    Backtracking.searchCalls 20 (1 / 2) (pt 1) (pt (-2)) square 1
      = Backtracking.Call.gradient (pt 1) ::
        (List.range (2 + 1)).map
          (fun i => Backtracking.Call.value (pt 1 + ((1 : ℚ) * Backtracking.tau ^ i) • pt (-2))) ∧
    (Backtracking.searchCalls 20 (1 / 2) (pt 1) (pt (-2)) square 1).countP
      Backtracking.Call.isGradient = 1 ∧
    (Backtracking.searchCalls 20 (1 / 2) (pt 1) (pt (-2)) square 1).countP
      Backtracking.Call.isValue = 2 + 1 ∧
    ((0 : ℚ) < 1 →
      0 < Backtracking.search 20 (1 / 2) (pt 1) (pt (-2)) square 1 ∧
      Backtracking.search 20 (1 / 2) (pt 1) (pt (-2)) square 1 ≤ 1) :=
  (Backtracking.search_returns_first_accepted_step 20 (1 / 2) (pt 1) (pt (-2)) square 1).1 2
    (by norm_num)
    (by norm_num [Backtracking.sufficientDecrease, Backtracking.tau, square, pt, dot])
    (by
      intro i hi
      interval_cases i <;>
        norm_num [Backtracking.sufficientDecrease, Backtracking.tau, square, pt, dot])

namespace internal
variable {K : Type} [LinearOrderedField K]

theorem cubic_eq_of_coeffs (sqrt : K → K) (fx0 gtp fxa alpha fxp alphap : K) :
    cubic sqrt fx0 gtp fxa alpha fxp alphap =
      if |(cubicCoeffs fx0 gtp fxa alpha fxp alphap).1| ≤ 0 then
        -gtp / (2 * (cubicCoeffs fx0 gtp fxa alpha fxp alphap).2)
      else
        (-(cubicCoeffs fx0 gtp fxa alpha fxp alphap).2 +
          sqrt ((cubicCoeffs fx0 gtp fxa alpha fxp alphap).2 *
              (cubicCoeffs fx0 gtp fxa alpha fxp alphap).2 -
            3 * (cubicCoeffs fx0 gtp fxa alpha fxp alphap).1 * gtp)) /
          (3 * (cubicCoeffs fx0 gtp fxa alpha fxp alphap).1) := rfl

theorem cubicModel_taylor (r0 r1 gtp fx0 t h : K) :
    cubicModel r0 r1 gtp fx0 (t + h) =
      cubicModel r0 r1 gtp fx0 t + cubicModelDeriv r0 r1 gtp t * h +
        cubicModelDeriv2 r0 r1 t / 2 * h ^ 2 + r0 * h ^ 3 := by
  unfold cubicModel cubicModelDeriv cubicModelDeriv2
  ring

/-- The coefficients solve the interpolation system: the cubic passes through both points. -/
theorem cubicCoeffs_interpolate (fx0 gtp fxa alpha fxp alphap : K)
    (ha : alpha ≠ 0) (hap : alphap ≠ 0) (hne : alpha ≠ alphap) :
    cubicModel (cubicCoeffs fx0 gtp fxa alpha fxp alphap).1
      (cubicCoeffs fx0 gtp fxa alpha fxp alphap).2 gtp fx0 alpha = fxa ∧
    cubicModel (cubicCoeffs fx0 gtp fxa alpha fxp alphap).1
      (cubicCoeffs fx0 gtp fxa alpha fxp alphap).2 gtp fx0 alphap = fxp := by
  have hd : alpha - alphap ≠ 0 := sub_ne_zero.mpr hne
  unfold cubicModel cubicCoeffs
  simp only
  constructor
  · field_simp
    ring
  · field_simp
    ring

end internal

/-- C14: `internal::cubic(fx0, gtp, fxa, alpha, fxp, alphap)` for nonzero `alpha != alphap` and
a square-root function `sqrt`. Its coefficients `(r0, r1)` make the cubic
`c(t) = r0*t^3 + r1*t^2 + gtp*t + fx0` pass through `(alpha, fxa)` and `(alphap, fxp)`. When
`r0 != 0` and `r1^2 - 3*r0*gtp >= 0` it returns `t = (-r1 + sqrt(r1^2 - 3*r0*gtp))/(3*r0)`, where
`c'(t) = 0` and `c''(t) >= 0`, and `c(t) <= c(t + h)` for every `h` with
`|r0*h| <= sqrt(r1^2 - 3*r0*gtp)`. When `r0 = 0` it returns `-gtp/(2*r1)`, where the derivative
`2*r1*t + gtp` of the remaining quadratic vanishes if `r1 != 0`. -/
theorem internal.cubic_returns_stationary_point {K : Type} [LinearOrderedField K]
    (sqrt : K → K) (fx0 gtp fxa alpha fxp alphap r0 r1 : K)
    (hsqrt : ∀ v : K, 0 ≤ v → 0 ≤ sqrt v ∧ sqrt v * sqrt v = v)
    (ha : alpha ≠ 0) (hap : alphap ≠ 0) (hne : alpha ≠ alphap)
    (hr : internal.cubicCoeffs fx0 gtp fxa alpha fxp alphap = (r0, r1)) :
    internal.cubicModel r0 r1 gtp fx0 alpha = fxa ∧
    internal.cubicModel r0 r1 gtp fx0 alphap = fxp ∧
    (r0 ≠ 0 → 0 ≤ r1 * r1 - 3 * r0 * gtp →
      internal.cubic sqrt fx0 gtp fxa alpha fxp alphap
        = (-r1 + sqrt (r1 * r1 - 3 * r0 * gtp)) / (3 * r0) ∧
      internal.cubicModelDeriv r0 r1 gtp (internal.cubic sqrt fx0 gtp fxa alpha fxp alphap) = 0 ∧
      0 ≤ internal.cubicModelDeriv2 r0 r1 (internal.cubic sqrt fx0 gtp fxa alpha fxp alphap) ∧
      (∀ h : K, |r0 * h| ≤ sqrt (r1 * r1 - 3 * r0 * gtp) →
        internal.cubicModel r0 r1 gtp fx0 (internal.cubic sqrt fx0 gtp fxa alpha fxp alphap)
          ≤ internal.cubicModel r0 r1 gtp fx0
              (internal.cubic sqrt fx0 gtp fxa alpha fxp alphap + h))) ∧
    (r0 = 0 →
      internal.cubic sqrt fx0 gtp fxa alpha fxp alphap = -gtp / (2 * r1) ∧
      (r1 ≠ 0 → 2 * r1 * internal.cubic sqrt fx0 gtp fxa alpha fxp alphap + gtp = 0)) := by
  have hint := internal.cubicCoeffs_interpolate fx0 gtp fxa alpha fxp alphap ha hap hne
  have hc := internal.cubic_eq_of_coeffs sqrt fx0 gtp fxa alpha fxp alphap
  rw [hr] at hint hc
  simp only at hint hc
  refine ⟨hint.1, hint.2, ?_, ?_⟩
  · intro hr0 hD
    obtain ⟨hd0, hdd⟩ := hsqrt _ hD
    have habs : ¬ |r0| ≤ 0 := not_le.mpr (abs_pos.mpr hr0)
    rw [if_neg habs] at hc
    have ht : 3 * r0 * internal.cubic sqrt fx0 gtp fxa alpha fxp alphap
        = -r1 + sqrt (r1 * r1 - 3 * r0 * gtp) := by
      rw [hc]; field_simp
    have hderiv : internal.cubicModelDeriv r0 r1 gtp
        (internal.cubic sqrt fx0 gtp fxa alpha fxp alphap) = 0 := by
      have h3 : 3 * r0 * internal.cubicModelDeriv r0 r1 gtp
          (internal.cubic sqrt fx0 gtp fxa alpha fxp alphap) = 0 := by
        unfold internal.cubicModelDeriv
        linear_combination
          (3 * r0 * internal.cubic sqrt fx0 gtp fxa alpha fxp alphap +
            sqrt (r1 * r1 - 3 * r0 * gtp) + r1) * ht + hdd
      rcases mul_eq_zero.mp h3 with h | h
      · exact absurd h (mul_ne_zero (by norm_num) hr0)
      · exact h
    have hderiv2 : internal.cubicModelDeriv2 r0 r1
        (internal.cubic sqrt fx0 gtp fxa alpha fxp alphap)
          = 2 * sqrt (r1 * r1 - 3 * r0 * gtp) := by
      unfold internal.cubicModelDeriv2
      linear_combination 2 * ht
    refine ⟨hc, hderiv, by rw [hderiv2]; linarith, ?_⟩
    intro h hh
    rw [internal.cubicModel_taylor, hderiv, hderiv2]
    have hlow : -sqrt (r1 * r1 - 3 * r0 * gtp) ≤ r0 * h := (abs_le.mp hh).1
    have hsq : 0 ≤ h ^ 2 := sq_nonneg h
    nlinarith [mul_nonneg hsq (by linarith : 0 ≤ sqrt (r1 * r1 - 3 * r0 * gtp) + r0 * h)]
  · intro hr0
    have habs : |r0| ≤ 0 := by rw [hr0]; simp
    rw [if_pos habs] at hc
    refine ⟨hc, ?_⟩
    intro hr1
    rw [hc]
    field_simp
    ring

/-- An instance of C14 over the reals with the real square root: the data of the cubic
`c(t) = t^3/3 - t` at `alpha = 1` and `alphap = 2`, whose local minimizer is `t = 1`. -/
theorem internal.cubic_returns_stationary_point_witness :
    (∀ v : ℝ, 0 ≤ v → 0 ≤ Real.sqrt v ∧ Real.sqrt v * Real.sqrt v = v) ∧
    (1 : ℝ) ≠ 0 ∧ (2 : ℝ) ≠ 0 ∧ (1 : ℝ) ≠ 2 ∧
    internal.cubicCoeffs (0 : ℝ) (-1) (-2 / 3) 1 (2 / 3) 2 = (1 / 3, 0) ∧
    (internal.cubicModel (1 / 3 : ℝ) 0 (-1) 0 1 = -2 / 3 ∧
    internal.cubicModel (1 / 3 : ℝ) 0 (-1) 0 2 = 2 / 3 ∧
    ((1 / 3 : ℝ) ≠ 0 → (0 : ℝ) ≤ 0 * 0 - 3 * (1 / 3) * (-1) →
      internal.cubic Real.sqrt 0 (-1) (-2 / 3) 1 (2 / 3) 2
        = (-0 + Real.sqrt (0 * 0 - 3 * (1 / 3) * (-1))) / (3 * (1 / 3)) ∧
      internal.cubicModelDeriv (1 / 3) 0 (-1)
        (internal.cubic Real.sqrt 0 (-1) (-2 / 3) 1 (2 / 3) 2) = 0 ∧
      0 ≤ internal.cubicModelDeriv2 (1 / 3) 0
        (internal.cubic Real.sqrt 0 (-1) (-2 / 3) 1 (2 / 3) 2) ∧
      (∀ h : ℝ, |1 / 3 * h| ≤ Real.sqrt (0 * 0 - 3 * (1 / 3) * (-1)) →
        internal.cubicModel (1 / 3) 0 (-1) 0
            (internal.cubic Real.sqrt 0 (-1) (-2 / 3) 1 (2 / 3) 2)
          ≤ internal.cubicModel (1 / 3) 0 (-1) 0
              (internal.cubic Real.sqrt 0 (-1) (-2 / 3) 1 (2 / 3) 2 + h))) ∧
    ((1 / 3 : ℝ) = 0 →
      internal.cubic Real.sqrt 0 (-1) (-2 / 3) 1 (2 / 3) 2 = -(-1) / (2 * 0) ∧
      ((0 : ℝ) ≠ 0 →
        2 * 0 * internal.cubic Real.sqrt 0 (-1) (-2 / 3) 1 (2 / 3) 2 + -1 = 0))) :=
  have hsqrt : ∀ v : ℝ, 0 ≤ v → 0 ≤ Real.sqrt v ∧ Real.sqrt v * Real.sqrt v = v :=
    fun v hv => ⟨Real.sqrt_nonneg v, Real.mul_self_sqrt hv⟩
  have hr : internal.cubicCoeffs (0 : ℝ) (-1) (-2 / 3) 1 (2 / 3) 2 = (1 / 3, 0) := by
    norm_num [internal.cubicCoeffs]
  ⟨hsqrt, by norm_num, by norm_num, by norm_num, hr,
    internal.cubic_returns_stationary_point Real.sqrt 0 (-1) (-2 / 3) 1 (2 / 3) 2 (1 / 3) 0
      hsqrt (by norm_num) (by norm_num) (by norm_num) hr⟩

namespace BacktrackingCurvature
variable {K : Type} [LinearOrderedField K] {n : Nat}

/-- At the first rejected trial (`iter == 0`) the step tried next is the clamped
`quadraticCandidate`. -/
theorem refine_first (sqrt : K → K) (fx0 gtp fxa : K) (st : LoopState K) (h : st.iter = 0) :
    (refine sqrt fx0 gtp fxa st).alpha
      = internal.range (quadraticCandidate fx0 gtp fxa) (1 / 10 * st.alpha) (1 / 2 * st.alpha) := by
  simp [refine, quadraticCandidate, h]

theorem fittedQuadratic_fits (fx0 gtp alpha0 fxa : K) (h0 : alpha0 ≠ 0) :
    fittedQuadratic fx0 gtp alpha0 fxa 0 = fx0 ∧
    fittedQuadratic fx0 gtp alpha0 fxa alpha0 = fxa := by
  unfold fittedQuadratic
  constructor
  · ring
  · field_simp

/-- For the first step `alpha0 = 1` and a fitted quadratic that is convex, the candidate of
line 127 is the minimizer of the fitted quadratic. -/
theorem quadraticCandidate_minimizes_of_unit_step (fx0 gtp fxa : K)
    (hconv : 0 < fxa - fx0 - gtp) (t : K) :
    fittedQuadratic fx0 gtp 1 fxa (quadraticCandidate fx0 gtp fxa)
      ≤ fittedQuadratic fx0 gtp 1 fxa t := by
  have hne : fx0 + gtp - fxa ≠ 0 := by
    intro h
    linarith
  have hc : 2 * (fxa - fx0 - gtp) * quadraticCandidate fx0 gtp fxa = -gtp := by
    unfold quadraticCandidate
    field_simp
    ring
  have key : fittedQuadratic fx0 gtp 1 fxa t
      - fittedQuadratic fx0 gtp 1 fxa (quadraticCandidate fx0 gtp fxa)
      = (fxa - fx0 - gtp) * (t - quadraticCandidate fx0 gtp fxa) ^ 2 := by
    unfold fittedQuadratic
    linear_combination (t - quadraticCandidate fx0 gtp fxa) * hc
  have hsq : 0 ≤ (fxa - fx0 - gtp) * (t - quadraticCandidate fx0 gtp fxa) ^ 2 :=
    mul_nonneg (le_of_lt hconv) (sq_nonneg _)
  linarith

end BacktrackingCurvature

/-- C13, at the failing input `alpha0 = 2` on `f(x) = x^2` from `x = 1` along `p = -1`
(`fx0 = 1`, `gtp = -2`, `fxa = f(-1) = 1`): the first trial is rejected, the candidate of
line 127 is `1/2` and becomes the next step, whereas the quadratic through `q(0) = 1`,
`q'(0) = -2`, `q(2) = 1` is `q(t) = (t - 1)^2`, which is smaller at `t = 1` than at the
candidate. -/
theorem BacktrackingCurvature.quadratic_candidate_ignores_alpha0 :
    ¬ Backtracking.sufficientDecrease (1 / 2) (pt 1) (pt (-1)) square (square.gradient (pt 1)).1
        (dot (square.gradient (pt 1)).2 (pt (-1))) 2 ∧
    (square.gradient (pt 1)).1 = 1 ∧
    dot (square.gradient (pt 1)).2 (pt (-1)) = -2 ∧
    square.value (pt 1 + (2 : ℚ) • pt (-1)) = 1 ∧
    BacktrackingCurvature.quadraticCandidate (1 : ℚ) (-2) 1 = 1 / 2 ∧
    (BacktrackingCurvature.refine (fun t : ℚ => t) 1 (-2) 1 ⟨0, 2, 1, 2⟩).alpha = 1 / 2 ∧
    BacktrackingCurvature.fittedQuadratic (1 : ℚ) (-2) 2 1 0 = 1 ∧
    BacktrackingCurvature.fittedQuadratic (1 : ℚ) (-2) 2 1 2 = 1 ∧
    (∀ t : ℚ, BacktrackingCurvature.fittedQuadratic (1 : ℚ) (-2) 2 1 t = (t - 1) ^ 2) ∧
    BacktrackingCurvature.fittedQuadratic (1 : ℚ) (-2) 2 1 1
      < BacktrackingCurvature.fittedQuadratic (1 : ℚ) (-2) 2 1
          (BacktrackingCurvature.quadraticCandidate (1 : ℚ) (-2) 1) := by
  refine ⟨?_, ?_, ?_, ?_, ?_, ?_, ?_, ?_, ?_, ?_⟩
  · norm_num [Backtracking.sufficientDecrease, square, pt, dot]
  · norm_num [square, pt]
  · norm_num [square, pt, dot]
  · norm_num [square, pt]
  · norm_num [BacktrackingCurvature.quadraticCandidate]
  · norm_num [BacktrackingCurvature.refine, internal.range]
  · norm_num [BacktrackingCurvature.fittedQuadratic]
  · norm_num [BacktrackingCurvature.fittedQuadratic]
  · intro t
    unfold BacktrackingCurvature.fittedQuadratic
    ring
  · norm_num [BacktrackingCurvature.fittedQuadratic, BacktrackingCurvature.quadraticCandidate]

namespace BacktrackingCurvature
variable {K : Type} [LinearOrderedField K] {n : Nat}

/-- What holds of the arguments of a call of `internal::cubic` made by the loop. -/
theorem cubicCalls_args (sqrt : K → K) (decrease : K) (x p : Vec K n) (problem : Problem K n)
    (fx0 gtp : K) :
    ∀ (r : Nat) (st : LoopState K), 0 ≤ st.iter → 0 < st.alpha →
      (st.iter ≠ 0 → 0 < st.alphap ∧ st.alpha ≤ 1 / 2 * st.alphap ∧
        st.fxp = problem.value (x + st.alphap • p) ∧
        ¬ Backtracking.sufficientDecrease decrease x p problem fx0 gtp st.alphap) →
      ∀ c ∈ cubicCalls sqrt decrease x p problem fx0 gtp r st,
        0 < c.alpha ∧ 0 < c.alphap ∧ c.alpha ≤ 1 / 2 * c.alphap ∧
        c.fxp = problem.value (x + c.alphap • p) ∧
        ¬ Backtracking.sufficientDecrease decrease x p problem fx0 gtp c.alphap ∧
        c.fxa = problem.value (x + c.alpha • p) ∧
        ¬ Backtracking.sufficientDecrease decrease x p problem fx0 gtp c.alpha := by
  intro r
  induction r with
  | zero =>
    intro st _ _ _ c hc
    simp [cubicCalls] at hc
  | succ r ih =>
    intro st hi ha hinv c hc
    by_cases hs : Backtracking.sufficientDecrease decrease x p problem fx0 gtp st.alpha
    · simp [cubicCalls, hs] at hc
    · simp only [cubicCalls, hs, if_false, List.mem_append] at hc
      rcases hc with hc | hc
      · by_cases h0 : st.iter = 0
        · simp [h0] at hc
        · simp only [h0, if_false, List.mem_singleton] at hc
          subst hc
          obtain ⟨h1, h2, h3, h4⟩ := hinv h0
          exact ⟨ha, h1, h2, h3, h4, rfl, hs⟩
      · have hr := refine_alpha_mem sqrt fx0 gtp (problem.value (x + st.alpha • p)) st ha
        have hpos : 0 < (refine sqrt fx0 gtp (problem.value (x + st.alpha • p)) st).alpha := by
          nlinarith [hr.1]
        refine ih (refine sqrt fx0 gtp (problem.value (x + st.alpha • p)) st) ?_ hpos ?_ c hc
        · rw [refine_iter]; omega
        · intro _
          exact ⟨ha, hr.2, rfl, hs⟩

end BacktrackingCurvature

/-- In exact arithmetic, where every step is a number: for `alpha0 > 0`, every call
`internal::cubic(fx0, gtp, fxa, alpha, fxp, alphap)` made by `BacktrackingCurvature::search` has
`alpha > 0`, `alphap > 0` and `alpha <= 0.5*alphap`, where `alphap` is a rejected step and `fxp`
the objective value at it; so the denominator `alpha*alpha * alphap*alphap * (alpha-alphap)` of
line 52 is not zero. For the floating scalars of the source a step can be NaN, see
`cubicFp_nan_of_neg_discriminant`. -/
theorem BacktrackingCurvature.cubic_calls_well_defined {K : Type} [LinearOrderedField K]
    {n : Nat} (sqrt : K → K) (max_iters : Int) (decrease : K) (x p : Vec K n)
    (problem : Problem K n) (alpha0 : K) (h0 : 0 < alpha0) :
    ∀ c ∈ BacktrackingCurvature.searchCubicCalls sqrt max_iters decrease x p problem alpha0,
      0 < c.alpha ∧ 0 < c.alphap ∧ c.alpha ≤ 1 / 2 * c.alphap ∧
      c.fxp = problem.value (x + c.alphap • p) ∧
      ¬ Backtracking.sufficientDecrease decrease x p problem (problem.gradient x).1
        (dot (problem.gradient x).2 p) c.alphap ∧
      c.alpha * c.alpha * c.alphap * c.alphap * (c.alpha - c.alphap) ≠ 0 := by
  intro c hc
  obtain ⟨h1, h2, h3, h4, h5, _, _⟩ := BacktrackingCurvature.cubicCalls_args sqrt decrease x p
    problem (problem.gradient x).1 (dot (problem.gradient x).2 p) max_iters.toNat
    ⟨0, alpha0, (problem.gradient x).1, alpha0⟩ (le_refl _) h0 (fun h => absurd rfl h) c hc
  refine ⟨h1, h2, h3, h4, h5, ?_⟩
  have hlt : c.alpha - c.alphap < 0 := by linarith
  have hpos : 0 < c.alpha * c.alpha * c.alphap * c.alphap := by positivity
  exact ne_of_lt (mul_neg_of_pos_of_neg hpos hlt)

/-- The calls of the cubic interpolation in exact arithmetic in a run of five trials on
`f(x) = x^2` from `x = 1` along the ascent direction `p = 1`, all rejected. -/
theorem BacktrackingCurvature.cubic_calls_well_defined_witness :
    (0 : ℚ) < 1 ∧
    (BacktrackingCurvature.searchCubicCalls (fun t : ℚ => t) 5 (1 / 2) (pt 1) (pt 1) square
      1).length = 4 ∧
    ∀ c ∈ BacktrackingCurvature.searchCubicCalls (fun t : ℚ => t) 5 (1 / 2) (pt 1) (pt 1)
        square 1,
      0 < c.alpha ∧ 0 < c.alphap ∧ c.alpha ≤ 1 / 2 * c.alphap ∧
      c.fxp = square.value (pt 1 + c.alphap • pt 1) ∧
      ¬ Backtracking.sufficientDecrease (1 / 2) (pt 1) (pt 1) square (square.gradient (pt 1)).1
        (dot (square.gradient (pt 1)).2 (pt 1)) c.alphap ∧
      c.alpha * c.alpha * c.alphap * c.alphap * (c.alpha - c.alphap) ≠ 0 :=
  ⟨by norm_num,
    by
      norm_num [BacktrackingCurvature.searchCubicCalls, BacktrackingCurvature.cubicCalls,
        BacktrackingCurvature.refine, Backtracking.sufficientDecrease, internal.range,
        internal.cubic, square, pt, dot],
    BacktrackingCurvature.cubic_calls_well_defined (fun t : ℚ => t) 5 (1 / 2) (pt 1) (pt 1)
      square 1 (by norm_num)⟩

namespace LBFGS
variable {K : Type} [LinearOrderedField K] {n : Nat}

theorem dot_comm (a b : Vec K n) : dot a b = dot b a := by
  simp [dot, mul_comm]

theorem vecMulVec_mulVec_dot (a b g : Vec K n) :
    (Matrix.vecMulVec a b).mulVec g = dot b g • a := by
  funext i
  simp only [Matrix.mulVec, Matrix.dotProduct, Matrix.vecMulVec_apply, dot, Pi.smul_apply,
    smul_eq_mul, Finset.sum_mul, mul_assoc]
  apply Finset.sum_congr rfl
  intro j _
  ring

/-- The first loop leaves the entries of `rho` and `alpha` from its start index on as they
were. -/
theorem firstLoop_frame (s y : Nat → Vec K n) :
    ∀ (m : Nat) (w : Work K n) (j : Nat), m ≤ j →
      (firstLoop s y m w).rho j = w.rho j ∧ (firstLoop s y m w).alpha j = w.alpha j := by
  intro m
  induction m with
  | zero => intro w j _; exact ⟨rfl, rfl⟩
  | succ m ih =>
    intro w j hj
    simp only [firstLoop]
    obtain ⟨h1, h2⟩ := ih
      { rho := Function.update w.rho m (1 / dot (s m) (y m))
        alpha := Function.update w.alpha m
          (Function.update w.rho m (1 / dot (s m) (y m)) m * dot (s m) w.q)
        q := w.q - Function.update w.alpha m
          (Function.update w.rho m (1 / dot (s m) (y m)) m * dot (s m) w.q) m • y m }
      j (by omega)
    have hne : j ≠ m := by omega
    rw [h1, h2]
    simp [Function.update_noteq hne]

/-- The two loops on the columns `0 .. m-1`, started from any arrays `rho`, `alpha` and the
vector `q`, apply the BFGS inverse-Hessian estimate of those `m` pairs to `q`. -/
theorem twoLoop_core (s y : Nat → Vec K n) (gamma_k : K) :
    ∀ (m : Nat) (w : Work K n),
      secondLoop s y (firstLoop s y m w).rho (firstLoop s y m w).alpha m
          (gamma_k • (firstLoop s y m w).q)
        = (bfgsInverseHessian s y gamma_k m).mulVec w.q := by
  intro m
  induction m with
  | zero =>
    intro w
    simp [firstLoop, secondLoop, bfgsInverseHessian, Matrix.smul_mulVec_assoc]
  | succ m ih =>
    intro w
    have hu : Function.update w.rho m (1 / dot (s m) (y m)) m = 1 / dot (s m) (y m) :=
      Function.update_same _ _ _
    have ha : Function.update w.alpha m (1 / dot (s m) (y m) * dot (s m) w.q) m
        = 1 / dot (s m) (y m) * dot (s m) w.q := Function.update_same _ _ _
    simp only [firstLoop, secondLoop, hu, ha]
    have hih := ih
      { rho := Function.update w.rho m (1 / dot (s m) (y m))
        alpha := Function.update w.alpha m (1 / dot (s m) (y m) * dot (s m) w.q)
        q := w.q - (1 / dot (s m) (y m) * dot (s m) w.q) • y m }
    obtain ⟨hf1, hf2⟩ := firstLoop_frame s y m
      { rho := Function.update w.rho m (1 / dot (s m) (y m))
        alpha := Function.update w.alpha m (1 / dot (s m) (y m) * dot (s m) w.q)
        q := w.q - (1 / dot (s m) (y m) * dot (s m) w.q) • y m } m (le_refl _)
    simp only [hu, ha] at hf1 hf2
    rw [hih, hf1, hf2]
    simp only [bfgsInverseHessian, Matrix.add_mulVec, ← Matrix.mulVec_mulVec, Matrix.sub_mulVec,
      Matrix.one_mulVec, Matrix.smul_mulVec_assoc, vecMulVec_mulVec_dot]
    rw [dot_comm (Matrix.mulVec _ _) (y m)]
    simp only [smul_smul]
    funext i
    simp only [Pi.add_apply, Pi.sub_apply, Pi.smul_apply, smul_eq_mul]
    ring

end LBFGS

namespace LBFGS
variable {K : Type} [LinearOrderedField K] {n : Nat}

theorem twoLoop_eq_bfgs (M : Nat) (st : State K n) :
    (twoLoop M st).q
      = (bfgsInverseHessian st.s st.y st.gamma_k (min (M : Int) st.k).toNat).mulVec st.grad := by
  unfold twoLoop
  exact twoLoop_core st.s st.y st.gamma_k _ { rho := st.rho, alpha := st.alpha, q := st.grad }

/-- The secant equation of the estimate: `H_{m+1} y_m = s_m` when `s_m . y_m != 0`. -/
theorem bfgs_secant (s y : Nat → Vec K n) (gamma_k : K) (m : Nat)
    (hsy : dot (s m) (y m) ≠ 0) :
    (bfgsInverseHessian s y gamma_k (m + 1)).mulVec (y m) = s m := by
  have h1 : 1 / dot (s m) (y m) * dot (s m) (y m) = 1 := by field_simp
  have hz : y m - (1 / dot (s m) (y m)) • dot (s m) (y m) • y m = 0 := by
    rw [smul_smul, h1, one_smul, sub_self]
  simp only [bfgsInverseHessian, Matrix.add_mulVec, ← Matrix.mulVec_mulVec, Matrix.sub_mulVec,
    Matrix.one_mulVec, Matrix.smul_mulVec_assoc, vecMulVec_mulVec_dot, hz, Matrix.mulVec_zero]
  rw [smul_smul, h1, one_smul]
  simp [dot]

end LBFGS

/-- C12: the two-loop recursion of `LBFGS::minimize` applies the BFGS inverse-Hessian estimate.
For every state (history columns `s_i`, `y_i`, scale `gamma_k`, vector `grad`), the vector
`q` after the backward pass over the `m = min(M, k)` columns, the scaling by `gamma_k` and the
forward pass is `H_m grad`, where `H_0 = gamma_k*I` and
`H_{i+1} = (I - rho_i s_i y_i^T) H_i (I - rho_i y_i s_i^T) + rho_i s_i s_i^T`,
`rho_i = 1/(s_i . y_i)`; the same holds for the two loops run on a list of pairs; with `k = 0`
the result is `gamma_k*grad`, which is `init_hess*grad` in the first iteration. -/
theorem LBFGS.twoLoop_applies_bfgs_estimate {K : Type} [LinearOrderedField K] {n : Nat}
    (M : Nat) (st : LBFGS.State K n) :
    (LBFGS.twoLoop M st).q
      = (LBFGS.bfgsInverseHessian st.s st.y st.gamma_k
          (min (M : Int) st.k).toNat).mulVec st.grad ∧
    (∀ (pairs : List (Vec K n × Vec K n)) (gamma_k : K) (g : Vec K n),
      LBFGS.directionOf pairs gamma_k g
        = (LBFGS.bfgsInverseHessian (fun j => (pairs.getD j (0, 0)).1)
            (fun j => (pairs.getD j (0, 0)).2) gamma_k pairs.length).mulVec g) ∧
    (st.k = 0 → (LBFGS.twoLoop M st).q = st.gamma_k • st.grad) ∧
    (∀ (max_iters : Int) (init_hess : K) (problem : Problem K n) (x : Vec K n),
      (LBFGS.twoLoop M (LBFGS.init max_iters init_hess problem x)).q
        = init_hess • (problem.gradient x).2) := by
  have h0 : ∀ st1 : LBFGS.State K n, st1.k = 0 →
      (LBFGS.twoLoop M st1).q = st1.gamma_k • st1.grad := by
    intro st1 hk
    rw [LBFGS.twoLoop_eq_bfgs, hk]
    have : (min (M : Int) 0).toNat = 0 := by
      have : min (M : Int) 0 = 0 := min_eq_right (by omega)
      rw [this]; rfl
    rw [this]
    simp [LBFGS.bfgsInverseHessian, Matrix.smul_mulVec_assoc]
  refine ⟨LBFGS.twoLoop_eq_bfgs M st, ?_, h0 st, ?_⟩
  · intro pairs gamma_k g
    unfold LBFGS.directionOf
    exact LBFGS.twoLoop_core _ _ gamma_k pairs.length
      { rho := fun _ => 0, alpha := fun _ => 0, q := g }
  · intro max_iters init_hess problem x
    exact h0 _ rfl

/-- C17: the secant equation for the two-loop recursion of `LBFGS::minimize`. When the
recursion runs over `m + 1` columns, the newest pair `(s_m, y_m)` has `s_m . y_m != 0` and the
input vector is `y_m`, the result is `s_m`, for every scale `gamma_k` and whatever the older
pairs are; likewise for the two loops run on a list of pairs that ends with
`(s_new, y_new)`. -/
theorem LBFGS.twoLoop_secant_equation {K : Type} [LinearOrderedField K] {n : Nat}
    (M : Nat) (st : LBFGS.State K n) (m : Nat)
    (hiter : (min (M : Int) st.k).toNat = m + 1) (hg : st.grad = st.y m)
    (hsy : dot (st.s m) (st.y m) ≠ 0) :
    (LBFGS.twoLoop M st).q = st.s m ∧
    (∀ (older : List (Vec K n × Vec K n)) (s_new y_new : Vec K n) (gamma_k : K),
      dot s_new y_new ≠ 0 →
      LBFGS.directionOf (older ++ [(s_new, y_new)]) gamma_k y_new = s_new) := by
  constructor
  · rw [LBFGS.twoLoop_eq_bfgs, hiter, hg]
    exact LBFGS.bfgs_secant st.s st.y st.gamma_k m hsy
  · intro older s_new y_new gamma_k hne
    unfold LBFGS.directionOf
    rw [LBFGS.twoLoop_core]
    have hlen : (older ++ [(s_new, y_new)]).length = older.length + 1 := by simp
    have hget : (older ++ [(s_new, y_new)]).getD older.length (0, 0) = (s_new, y_new) := by
      simp [List.getD]
    rw [hlen]
    have := LBFGS.bfgs_secant (fun j => ((older ++ [(s_new, y_new)]).getD j (0, 0)).1)
      (fun j => ((older ++ [(s_new, y_new)]).getD j (0, 0)).2) gamma_k older.length
      (by simp only [hget]; exact hne)
    simp only [hget] at this
    exact this

/-- An instance of C17: one pair `s_0 = (2)`, `y_0 = (3)` and the input vector `(3)`. -/
theorem LBFGS.twoLoop_secant_equation_witness :
    (min ((8 : Nat) : Int) secantState.k).toNat = 0 + 1 ∧
    secantState.grad = secantState.y 0 ∧
    dot (secantState.s 0) (secantState.y 0) ≠ 0 ∧
    ((LBFGS.twoLoop 8 secantState).q = secantState.s 0 ∧
    (∀ (older : List (Vec ℚ 1 × Vec ℚ 1)) (s_new y_new : Vec ℚ 1) (gamma_k : ℚ),
      dot s_new y_new ≠ 0 →
      LBFGS.directionOf (older ++ [(s_new, y_new)]) gamma_k y_new = s_new)) :=
  have h1 : (min ((8 : Nat) : Int) secantState.k).toNat = 0 + 1 := by
    norm_num [secantState]
  have h2 : secantState.grad = secantState.y 0 := rfl
  have h3 : dot (secantState.s 0) (secantState.y 0) ≠ 0 := by
    norm_num [secantState, pt, dot]
  ⟨h1, h2, h3, LBFGS.twoLoop_secant_equation 8 secantState 0 h1 h2 h3⟩

namespace LBFGS
variable {K : Type} [LinearOrderedField K] {n : Nat}

end LBFGS

namespace LBFGS
variable {K : Type} [LinearOrderedField K] {n : Nat}

end LBFGS

section Norm
variable {K : Type} [LinearOrderedField K] {n : Nat}

end Norm

end optlib

namespace optimize
open optlib optlib.Examples

namespace ConjugateGradient
variable {K : Type} [LinearOrderedField K] {n : Nat}

end ConjugateGradient

end optimize

namespace optlib
open Examples

namespace Fp
variable {K : Type} [LinearOrderedField K]

@[simp] theorem num_add_num (a b : K) : (num a + num b : Fp K) = num (a + b) := rfl

@[simp] theorem num_sub_num (a b : K) : (num a - num b : Fp K) = num (a - b) := rfl

@[simp] theorem num_mul_num (a b : K) : (num a * num b : Fp K) = num (a * b) := rfl

@[simp] theorem num_div_num (a b : K) : (num a / num b : Fp K) = num (a / b) := rfl

@[simp] theorem neg_num (a : K) : (-(num a) : Fp K) = num (-a) := rfl

@[simp] theorem neg_nan : (-(nan) : Fp K) = nan := rfl

@[simp] theorem nan_add (b : Fp K) : (nan + b : Fp K) = nan := rfl

@[simp] theorem add_nan (a : Fp K) : (a + nan : Fp K) = nan := by cases a <;> rfl

@[simp] theorem nan_sub (b : Fp K) : (nan - b : Fp K) = nan := rfl

@[simp] theorem sub_nan (a : Fp K) : (a - nan : Fp K) = nan := by cases a <;> rfl

@[simp] theorem nan_mul (b : Fp K) : (nan * b : Fp K) = nan := rfl

@[simp] theorem mul_nan (a : Fp K) : (a * nan : Fp K) = nan := by cases a <;> rfl

@[simp] theorem nan_div (b : Fp K) : (nan / b : Fp K) = nan := rfl

@[simp] theorem div_nan (a : Fp K) : (a / nan : Fp K) = nan := by cases a <;> rfl

@[simp] theorem abs_num (a : K) : abs (num a) = num |a| := rfl

@[simp] theorem abs_nan : abs (nan : Fp K) = nan := rfl

@[simp] theorem sqrt_nan (f : K → K) : sqrt f (nan : Fp K) = nan := rfl

@[simp] theorem sqrt_num (f : K → K) (v : K) :
    sqrt f (num v) = if v < 0 then nan else num (f v) := rfl

@[simp] theorem lt_num_num (a b : K) : lt (num a) (num b) ↔ a < b := Iff.rfl

@[simp] theorem le_num_num (a b : K) : le (num a) (num b) ↔ a ≤ b := Iff.rfl

@[simp] theorem lt_nan_left (b : Fp K) : ¬ lt nan b := by
  intro h; cases b <;> exact h

@[simp] theorem lt_nan_right (a : Fp K) : ¬ lt a nan := by
  intro h; cases a <;> exact h

@[simp] theorem le_nan_left (b : Fp K) : ¬ le nan b := by
  intro h; cases b <;> exact h

@[simp] theorem le_nan_right (a : Fp K) : ¬ le a nan := by
  intro h; cases a <;> exact h

end Fp

/-- C4, at the failing input `x = 0`, `p = 1`, `f(x) = -x^3 + (13/8)x^2 - x`, `alpha0 = 1`,
`decrease = 1/2`, `max_iters = 3`. The steps `1` and `1/2` are rejected; at the second
rejection the cubic has `r = (-1, 13/8)` and the negative discriminant `-23/64`, so
`internal::cubic` returns NaN, `internal::range` returns that NaN (both of its comparisons are
false), and the third trial step is NaN: it is not in `[0.1*(1/2), 0.5*(1/2)]` and not
positive. -/
theorem BacktrackingCurvature.nan_step_escapes_clamp :
    ∀ atNaN : Fp ℚ,
      BacktrackingCurvature.searchStepsFp Rat.sqrt 3 (1 / 2) (pt 0) (pt 1) decreasingCubic
          atNaN 1
        = [Fp.num 1, Fp.num (1 / 2), Fp.nan, Fp.nan] ∧
      internal.cubicFp Rat.sqrt (Fp.num 0) (Fp.num (-1)) (Fp.num (-7 / 32)) (Fp.num (1 / 2))
          (Fp.num (-3 / 8)) (Fp.num 1) = Fp.nan ∧
      internal.rangeFp (Fp.nan : Fp ℚ) (Fp.num (1 / 10) * Fp.num (1 / 2))
          (Fp.num (1 / 2) * Fp.num (1 / 2)) = Fp.nan ∧
      ¬ Fp.le (Fp.num (1 / 10) * Fp.num (1 / 2)) (Fp.nan : Fp ℚ) ∧
      ¬ Fp.lt (Fp.num 0) (Fp.nan : Fp ℚ) := by
  intro atNaN
  refine ⟨?_, ?_, ?_, ?_, ?_⟩
  · norm_num [BacktrackingCurvature.searchStepsFp, BacktrackingCurvature.searchLoopFp,
      BacktrackingCurvature.refineFp, BacktrackingCurvature.valueFp, internal.rangeFp,
      internal.cubicFp, decreasingCubic, pt, dot]
  · norm_num [internal.cubicFp]
  · norm_num [internal.rangeFp]
  · simp
  · simp

namespace internal
variable {K : Type} [LinearOrderedField K]

/-- On numbers the floating clamp is the clamp `range`. -/
theorem rangeFp_num (alpha low high : K) :
    rangeFp (Fp.num alpha) (Fp.num low) (Fp.num high) = Fp.num (range alpha low high) := by
  unfold rangeFp range
  simp only [Fp.lt_num_num, gt_iff_lt]
  split_ifs <;> rfl

/-- A NaN candidate passes the floating clamp unchanged, whatever the bounds. -/
theorem rangeFp_nan (low high : Fp K) : rangeFp (Fp.nan : Fp K) low high = Fp.nan := by
  unfold rangeFp
  simp

/-- On numbers the floating interpolation is `cubic`, when the quadratic branch is taken or
the discriminant is not negative. -/
theorem cubicFp_num (sqrt : K → K) (fx0 gtp fxa alpha fxp alphap : K)
    (h : |(cubicCoeffs fx0 gtp fxa alpha fxp alphap).1| ≤ 0 ∨
      0 ≤ (cubicCoeffs fx0 gtp fxa alpha fxp alphap).2 *
          (cubicCoeffs fx0 gtp fxa alpha fxp alphap).2 -
        3 * (cubicCoeffs fx0 gtp fxa alpha fxp alphap).1 * gtp) :
    cubicFp sqrt (Fp.num fx0) (Fp.num gtp) (Fp.num fxa) (Fp.num alpha) (Fp.num fxp)
        (Fp.num alphap)
      = Fp.num (cubic sqrt fx0 gtp fxa alpha fxp alphap) := by
  rw [cubic_eq_of_coeffs]
  unfold cubicFp
  simp only [Fp.num_add_num, Fp.num_sub_num, Fp.num_mul_num, Fp.num_div_num, Fp.neg_num,
    Fp.abs_num, Fp.le_num_num, Fp.sqrt_num]
  unfold cubicCoeffs at h ⊢
  simp only at h ⊢
  by_cases h0 : |1 / (alpha * alpha * alphap * alphap * (alpha - alphap)) * (alphap * alphap) *
        (fxa - fx0 - alpha * gtp) +
      1 / (alpha * alpha * alphap * alphap * (alpha - alphap)) * (-alpha * alpha) *
        (fxp - fx0 - alphap * gtp)| ≤ 0
  · simp only [h0, if_true]
  · simp only [h0, if_false]
    have hd := h.resolve_left h0
    rw [if_neg (not_lt.mpr hd)]
    rfl

/-- With a cubic term and a negative discriminant the floating interpolation returns NaN. -/
theorem cubicFp_nan_of_neg_discriminant (sqrt : K → K) (fx0 gtp fxa alpha fxp alphap : K)
    (h0 : ¬ |(cubicCoeffs fx0 gtp fxa alpha fxp alphap).1| ≤ 0)
    (hd : (cubicCoeffs fx0 gtp fxa alpha fxp alphap).2 *
          (cubicCoeffs fx0 gtp fxa alpha fxp alphap).2 -
        3 * (cubicCoeffs fx0 gtp fxa alpha fxp alphap).1 * gtp < 0) :
    cubicFp sqrt (Fp.num fx0) (Fp.num gtp) (Fp.num fxa) (Fp.num alpha) (Fp.num fxp)
        (Fp.num alphap) = Fp.nan := by
  unfold cubicFp
  simp only [Fp.num_add_num, Fp.num_sub_num, Fp.num_mul_num, Fp.num_div_num, Fp.neg_num,
    Fp.abs_num, Fp.le_num_num, Fp.sqrt_num]
  unfold cubicCoeffs at h0 hd
  simp only at h0 hd
  rw [if_neg h0, if_pos hd]
  simp

end internal

namespace BacktrackingCurvature
variable {K : Type} [LinearOrderedField K] {n : Nat}

/-- After a rejected trial at a positive step `a`, the step prepared for the next trial is
either NaN or a number of `[0.1*a, 0.5*a]`: a NaN candidate is the one way past the clamp. -/
theorem refineFp_alpha_mem_or_nan (sqrt : K → K) (fx0 gtp fxa : Fp K) (st : LoopStateFp K)
    (a : K) (ha : 0 < a) (hst : st.alpha = Fp.num a) :
    (refineFp sqrt fx0 gtp fxa st).alpha = Fp.nan ∨
    ∃ b : K, (refineFp sqrt fx0 gtp fxa st).alpha = Fp.num b ∧
      1 / 10 * a ≤ b ∧ b ≤ 1 / 2 * a := by
  have key : ∀ t : Fp K,
      internal.rangeFp t (Fp.num (1 / 10) * Fp.num a) (Fp.num (1 / 2) * Fp.num a) = Fp.nan ∨
      ∃ b : K, internal.rangeFp t (Fp.num (1 / 10) * Fp.num a) (Fp.num (1 / 2) * Fp.num a)
          = Fp.num b ∧ 1 / 10 * a ≤ b ∧ b ≤ 1 / 2 * a := by
    intro t
    cases t with
    | nan => exact Or.inl (internal.rangeFp_nan _ _)
    | num v =>
      refine Or.inr ⟨internal.range v (1 / 10 * a) (1 / 2 * a), ?_, ?_⟩
      · simp only [Fp.num_mul_num]
        exact internal.rangeFp_num _ _ _
      · exact internal.range_mem _ _ _ (by nlinarith)
  unfold refineFp
  simp only [hst]
  exact key _

end BacktrackingCurvature

/-- C19, at the failing input `x = 0`, `p = 1`, `f(x) = -x^3 + (13/8)x^2 - x`, `alpha0 = 1`,
`decrease = 1/2`, `max_iters = 3`. `BacktrackingCurvature::search` calls `internal::cubic`
twice. The first call (steps `1/2` after `1`) has a negative discriminant and returns NaN, which
becomes the next step; the second call is made with `alpha = NaN` and `alphap = 1/2`: `0 < alpha`
and `alpha <= 0.5*alphap` are false and the denominator of line 52 is NaN. -/
theorem BacktrackingCurvature.cubic_called_with_nan_step :
    ∀ atNaN : Fp ℚ,
      BacktrackingCurvature.searchCubicCallsFp Rat.sqrt 3 (1 / 2) (pt 0) (pt 1) decreasingCubic
          atNaN 1
        = [⟨Fp.num 0, Fp.num (-1), Fp.num (-7 / 32), Fp.num (1 / 2), Fp.num (-3 / 8), Fp.num 1⟩,
          ⟨Fp.num 0, Fp.num (-1), atNaN, Fp.nan, Fp.num (-7 / 32), Fp.num (1 / 2)⟩] ∧
      ¬ Fp.lt (Fp.num 0) (Fp.nan : Fp ℚ) ∧
      ¬ Fp.le (Fp.nan : Fp ℚ) (Fp.num (1 / 2) * Fp.num (1 / 2)) ∧
      (Fp.nan : Fp ℚ) * Fp.nan * Fp.num (1 / 2) * Fp.num (1 / 2) * (Fp.nan - Fp.num (1 / 2))
        = Fp.nan := by
  intro atNaN
  refine ⟨?_, ?_, ?_, ?_⟩
  · norm_num [BacktrackingCurvature.searchCubicCallsFp, BacktrackingCurvature.cubicCallsFp,
      BacktrackingCurvature.refineFp, BacktrackingCurvature.valueFp, internal.rangeFp,
      internal.cubicFp, decreasingCubic, pt, dot]
  · simp
  · simp
  · simp

namespace LBFGS
variable {K : Type} [LinearOrderedField K] {n : Nat}

end LBFGS

end optlib
end mcl
